import Mathlib

/-!
Verification of the `morgan` package-registry core (`src/morgan/registry.py`)
via a shallow embedding in Lean 4.

The embedding mirrors the Python source: JSON-decoded Python values become
the inductive `PyVal`; Python string operations (`split`, `strip`, `lower`,
slicing) are hand-rolled over `List Char` with Python's exact semantics;
Python dicts used as mappings become association lists with
replace-or-append insertion; the stateful `GitLabRegistry` becomes explicit
state passing over `GState`; raised `RuntimeError`s become an `Except`
error channel, with the two raise sites (protocol failure versus hash
conflict) kept apart as two constructors of `RegError`.
-/

/-- JSON-decoded Python value, as produced by `json.load`: `None`, `str`,
`int`, `list`, or `dict` with string keys (the shapes the registry module
reads). -/
inductive PyVal where
  | null : PyVal
  | str : String → PyVal
  | int : Int → PyVal
  | list : List PyVal → PyVal
  | dict : List (String × PyVal) → PyVal
deriving Repr

/-- Python `x.get(key)` for a dict `x`: the stored value, or `None` when the
key is absent.  (JSON objects decoded by `json.load` have unique keys, so
first-match lookup is exact.)  Non-dict receivers do not occur in the claims'
scenarios; the theorems about `has_package` carry explicit dict-ness
hypotheses where records are read. -/
def pyGet (v : PyVal) (key : String) : PyVal :=
  match v with
  | .dict kvs =>
    match kvs.find? (fun p => p.1 = key) with
    | some p => p.2
    | none => .null
  | _ => .null

/-- Python `v == s` where `s` is a `str`: true exactly for an equal string. -/
def pyEqStr (v : PyVal) (s : String) : Bool :=
  match v with
  | .str t => t = s
  | _ => false

/-- Python `v == e` where `e : Optional[str]` (`None` or a string):
`None == None` is true, a string equals an equal string, and values of
different types are unequal. -/
def pyEqOpt (v : PyVal) (e : Option String) : Bool :=
  match v, e with
  | .str t, some s => t = s
  | .null, none => true
  | _, _ => false

/-- Python `==` on dict keys, restricted to the hashable JSON scalars
(`None`, `str`, `int`); `list`/`dict` keys would raise `TypeError` in
Python and are never equal to anything here. -/
def pyKeyEq (a b : PyVal) : Bool :=
  match a, b with
  | .null, .null => true
  | .str s, .str t => s = t
  | .int m, .int n => m = n
  | _, _ => false

/-- Whether a value is usable as a Python dict key (hashable JSON scalar). -/
def pyHashable : PyVal → Bool
  | .list _ => false
  | .dict _ => false
  | _ => true

mutual

/-- Python `str(v)` as used by f-string interpolation: strings verbatim,
`None` as `"None"`, ints in decimal, containers via `repr` of elements. -/
def pyToString : PyVal → String
  | .null => "None"
  | .str s => s
  | .int n => toString n
  | .list xs => "[" ++ pyJoinRepr xs ++ "]"
  | .dict kvs => "\x7b" ++ pyJoinReprD kvs ++ "\x7d"

/-- Python `repr(v)` for JSON values: like `str` but strings are quoted. -/
def pyReprV : PyVal → String
  | .null => "None"
  | .str s => "\x27" ++ s ++ "\x27"
  | .int n => toString n
  | .list xs => "[" ++ pyJoinRepr xs ++ "]"
  | .dict kvs => "\x7b" ++ pyJoinReprD kvs ++ "\x7d"

/-- Comma-joined `repr`s of list elements. -/
def pyJoinRepr : List PyVal → String
  | [] => ""
  | [x] => pyReprV x
  | x :: xs => pyReprV x ++ ", " ++ pyJoinRepr xs

/-- Comma-joined `repr`s of dict items. -/
def pyJoinReprD : List (String × PyVal) → String
  | [] => ""
  | [(k, v)] => "\x27" ++ k ++ "\x27: " ++ pyReprV v
  | (k, v) :: kvs => "\x27" ++ k ++ "\x27: " ++ pyReprV v ++ ", " ++ pyJoinReprD kvs

end

/-! Python string primitives over `List Char`, with `str` semantics. -/

/-- Auxiliary for `pySplitChar`: `acc` holds the current piece reversed. -/
def pySplitCharAux (sep : Char) : List Char → List Char → List (List Char)
  | [], acc => [acc.reverse]
  | c :: cs, acc =>
    if c = sep then acc.reverse :: pySplitCharAux sep cs []
    else pySplitCharAux sep cs (c :: acc)

/-- Python `s.split(sep)` for a one-character separator: splits at every
occurrence, keeping empty pieces (`"a,,b".split(",") == ["a", "", "b"]`,
`"".split(",") == [""]`). -/
def pySplitChar (sep : Char) (s : List Char) : List (List Char) :=
  pySplitCharAux sep s []

/-- Auxiliary for `pySplitOnce`. -/
def pySplitOnceAux (sep : Char) : List Char → List Char → Option (List Char × List Char)
  | [], _ => none
  | c :: cs, acc =>
    if c = sep then some (acc.reverse, cs)
    else pySplitOnceAux sep cs (c :: acc)

/-- Python `s.split(sep, 1)` for a one-character separator, fused with the
`sep in s` membership test: `none` when the separator does not occur,
otherwise the pieces before and after its first occurrence. -/
def pySplitOnce (sep : Char) (s : List Char) : Option (List Char × List Char) :=
  pySplitOnceAux sep s []

/-- Python `s.strip()`: remove leading and trailing whitespace. -/
def pyStrip (s : List Char) : List Char :=
  ((s.dropWhile Char.isWhitespace).reverse.dropWhile Char.isWhitespace).reverse

/-- Python `s.lower()` (ASCII case folding, all the headers need). -/
def pyLower (s : List Char) : List Char :=
  s.map Char.toLower

/-- Auxiliary for `pySplitWs`: `acc` holds the current word reversed. -/
def pySplitWsAux : List Char → List Char → List (List Char)
  | [], [] => []
  | [], acc => [acc.reverse]
  | c :: cs, acc =>
    if c.isWhitespace then
      match acc with
      | [] => pySplitWsAux cs []
      | _ => acc.reverse :: pySplitWsAux cs []
    else pySplitWsAux cs (c :: acc)

/-- Python `s.split()` with no argument: split on whitespace runs, dropping
empty pieces (`" a  b ".split() == ["a", "b"]`, `"".split() == []`). -/
def pySplitWs (s : List Char) : List (List Char) :=
  pySplitWsAux s []

/-! Python `dict` used as a string-to-string mapping. -/

/-- Python `d[k] = v` on a string-keyed dict: replace the value in place
when the key is present, otherwise append the new pair. -/
def dictInsert (d : List (String × String)) (k v : String) : List (String × String) :=
  if d.any (fun p => p.1 = k) then
    d.map (fun p => if p.1 = k then (k, v) else p)
  else d ++ [(k, v)]

/-- Python `d.get(k)` on a string-keyed dict. -/
def dictGet (d : List (String × String)) (k : String) : Option String :=
  (d.find? (fun p => p.1 = k)).map (fun p => p.2)

namespace GitLabRegistry

/-- Body of the inner parameter loop of `GitLabRegistry._parse_link_header`
(`registry.py` lines 134-158): strip the parameter, skip it when it has no
`=`, split at the first `=`, lowercase the name, and for a `rel` parameter
record each relation token (quoted values split on whitespace, unquoted
values are one token), lowercased, mapped to this section's URL. -/
def processParam (url : List Char) (links : List (String × String)) (param0 : List Char) :
    List (String × String) :=
  let param := pyStrip param0
  match pySplitOnce '=' param with
  | none => links
  | some (name0, value0) =>
    let name := pyLower (pyStrip name0)
    let value := pyStrip value0
    if name ≠ "rel".toList then links
    else if value.head? = some '"' ∧ value.getLast? = some '"' then
      let inner := (value.drop 1).dropLast
      (pySplitWs inner).foldl
        (fun l relType => dictInsert l (String.mk (pyLower relType)) (String.mk url)) links
    else dictInsert links (String.mk (pyLower value)) (String.mk url)

/-- Body of the outer section loop of `GitLabRegistry._parse_link_header`
(`registry.py` lines 114-158): strip the section, skip it when empty, split
on `;`, require the first segment to be of the form `<...>` (otherwise skip
the whole section), strip the angle brackets off the URL and process the
remaining parameters in order. -/
def processSection (links : List (String × String)) (sec0 : List Char) :
    List (String × String) :=
  let sec := pyStrip sec0
  if sec = [] then links
  else
    match pySplitChar ';' sec with
    | [] => links
    | urlPart0 :: params =>
      let urlPart := pyStrip urlPart0
      if urlPart.head? = some '<' ∧ urlPart.getLast? = some '>' then
        let url := (urlPart.drop 1).dropLast
        params.foldl (processParam url) links
      else links

/-- Shallow embedding of `GitLabRegistry._parse_link_header`
(`registry.py` lines 98-160): an empty header parses to the empty mapping;
otherwise the header splits on commas into sections, processed left to
right into a Python dict from lowercased relation token to URL. -/
def parse_link_header (linkHeader : String) : List (String × String) :=
  if linkHeader = "" then []
  else (pySplitChar ',' linkHeader.toList).foldl processSection []

end GitLabRegistry

/-- Error channel for the Python `RuntimeError`s the registry raises,
separated by raise site: `protocolError` for the two failure modes of
`_fetch_paginated_api` (transport/JSON-decode failure and non-list body),
`hashConflict` for the hash-mismatch raise in `has_package`. -/
inductive RegError where
  | protocolError : String → RegError
  | hashConflict : String → RegError
deriving Repr, DecidableEq

namespace GitLabRegistry

/-- One HTTP response as `_fetch_paginated_api` observes it: the parsed
JSON body and the optional `Link` response header. -/
structure HttpResponse where
  body : PyVal
  linkHeader : Option String

/-- Outcome of one `urllib.request.urlopen` + `json.load` round trip:
either a response, or a `urllib.error.URLError` / `json.JSONDecodeError`
(the two exception types the code catches), carrying its message. -/
inductive FetchOutcome where
  | success : HttpResponse → FetchOutcome
  | failure : String → FetchOutcome

/-- The remote HTTP API, as a deterministic map from URL to outcome. -/
def ApiServer : Type := String → FetchOutcome

/-- Python `self.name` for `GitLabRegistry`. -/
def gitLabName (registryUrl : String) : String :=
  "GitLab (" ++ registryUrl ++ ")"

/-- Next-page URL extraction at the bottom of the `while` loop of
`_fetch_paginated_api` (`registry.py` lines 191-197): no `Link` header (or
a falsy empty one) stops the walk; otherwise the header is parsed and the
walk continues with the `next` relation's URL, `none` meaning the parsed
links have no `next` entry. -/
def nextUrl (linkHeader : Option String) : Option String :=
  match linkHeader with
  | none => none
  | some lh => if lh = "" then none else dictGet (parse_link_header lh) "next"

/-- The `while current_url:` loop of `_fetch_paginated_api` (`registry.py`
lines 177-201), as a fuel-indexed step function (`none` = fuel exhausted,
i.e. the Python loop would still be running).  The loop condition is
Python's falsiness test: the walk exits when the current URL is `None` or
the EMPTY string — so a `Link` header whose `next` relation carries an
empty URL (for example `<>; rel="next"`) ends the walk with the results
gathered so far, without fetching `""`.  Each iteration fetches the
current URL; a transport/decode failure becomes the wrapping
`RuntimeError`, a non-list body becomes the format `RuntimeError` with the
payload in the message, and otherwise the page's items are appended and
the walk follows `nextUrl`. -/
def fetchLoop (server : ApiServer) (name : String) :
    Nat → Option String → List PyVal → Option (Except RegError (List PyVal))
  | _, none, results => some (.ok results)
  | 0, some url, results => if url = "" then some (.ok results) else none
  | fuel + 1, some url, results =>
    if url = "" then some (.ok results)
    else
      match server url with
      | .failure _ => some (.error (.protocolError ("Failed to read data from " ++ url)))
      | .success resp =>
        match resp.body with
        | .list pageData =>
          fetchLoop server name fuel (nextUrl resp.linkHeader) (results ++ pageData)
        | other =>
          some (.error (.protocolError
            ("Unexpected response format from " ++ name ++ ", expected a list: " ++
              pyToString other)))

/-- Shallow embedding of `GitLabRegistry._fetch_paginated_api`
(`registry.py` lines 162-202): append `?per_page=100` to the API URL and
run the pagination loop from there with an empty accumulator. -/
def fetch_paginated_api (server : ApiServer) (name : String) (fuel : Nat)
    (apiUrl : String) : Option (Except RegError (List PyVal)) :=
  fetchLoop server name fuel (some (apiUrl ++ "?per_page=100")) []

/-- Constructor state of a `GitLabRegistry` instance (`registry.py` lines
84-92): the registry base URL and the project identifier.  The bearer
token only affects the outgoing request headers, which the `ApiServer`
abstraction already absorbs. -/
structure Config where
  registryUrl : String
  project : String

/-- The two caches of a `GitLabRegistry` instance: `_packages_cache`
(`None` = not yet fetched) and `_package_files_cache` (a Python dict keyed
by package id, modelled as an association list). -/
structure GState where
  packagesCache : Option (List PyVal)
  packageFilesCache : List (PyVal × List PyVal)

/-- Fresh instance state: both caches empty. -/
def initState : GState := ⟨none, []⟩

/-- Lookup in the `_package_files_cache` dict. -/
def cacheGet (cache : List (PyVal × List PyVal)) (pid : PyVal) : Option (List PyVal) :=
  (cache.find? (fun p => pyKeyEq p.1 pid)).map (fun p => p.2)

/-- Assignment `_package_files_cache[pid] = files`: replace in place when
the key is present, otherwise append. -/
def cacheSet (cache : List (PyVal × List PyVal)) (pid : PyVal) (files : List PyVal) :
    List (PyVal × List PyVal) :=
  if cache.any (fun p => pyKeyEq p.1 pid) then
    cache.map (fun p => if pyKeyEq p.1 pid then (pid, files) else p)
  else cache ++ [(pid, files)]

/-- Endpoint-level view of `_fetch_paginated_api`: a deterministic map
from API URL to its result, either the concatenated item list or the
message of the protocol `RuntimeError` it raises (this is the only error
that function can produce). -/
def EndpointFetcher : Type := String → Except String (List PyVal)

/-- URL of the package-list endpoint (`registry.py` line 209). -/
def packagesUrl (cfg : Config) : String :=
  cfg.registryUrl ++ "/api/v4/projects/" ++ cfg.project ++ "/packages"

/-- URL of the package-files endpoint for a package id (`registry.py`
line 221); the id is interpolated with Python `str()`. -/
def packageFilesUrl (cfg : Config) (pid : PyVal) : String :=
  cfg.registryUrl ++ "/api/v4/projects/" ++ cfg.project ++ "/packages/" ++
    pyToString pid ++ "/package_files"

/-- Shallow embedding of `GitLabRegistry._fetch_packages_list`
(`registry.py` lines 204-211): return the cache when populated, otherwise
fetch, cache on success, and propagate a fetch failure with the cache
untouched.  The third component logs the endpoint URLs actually fetched. -/
def fetch_packages_list (fetchApi : EndpointFetcher) (cfg : Config) (st : GState) :
    Except RegError (List PyVal) × GState × List String :=
  match st.packagesCache with
  | some cached => (.ok cached, st, [])
  | none =>
    match fetchApi (packagesUrl cfg) with
    | .error msg => (.error (.protocolError msg), st, [packagesUrl cfg])
    | .ok items => (.ok items, { st with packagesCache := some items }, [packagesUrl cfg])

/-- Shallow embedding of `GitLabRegistry._fetch_package_files`
(`registry.py` lines 213-223): per-package-id cache-or-fetch.  (The
source's `is not None` guard on the stored value is vacuous: only fetched
lists are ever stored.) -/
def fetch_package_files (fetchApi : EndpointFetcher) (cfg : Config) (pid : PyVal)
    (st : GState) : Except RegError (List PyVal) × GState × List String :=
  match cacheGet st.packageFilesCache pid with
  | some cached => (.ok cached, st, [])
  | none =>
    match fetchApi (packageFilesUrl cfg pid) with
    | .error msg => (.error (.protocolError msg), st, [packageFilesUrl cfg pid])
    | .ok items =>
      (.ok items, { st with packageFilesCache := cacheSet st.packageFilesCache pid items },
        [packageFilesUrl cfg pid])

/-- The message of the hash-mismatch `RuntimeError` (`registry.py` lines
244-246). -/
def hashConflictMsg (fileName : String) : String :=
  "Hash of " ++ fileName ++ " does not match, unknown how to proceed"

/-- Inner file loop of `GitLabRegistry.has_package` (`registry.py` lines
237-246): skip files whose `file_name` differs; at the first name match,
return `True` when the `file_{hash_alg}` field equals the expected hash
and raise otherwise.  `none` means the loop fell through (no name match)
and the outer package loop continues. -/
def scanFiles (fileName hashAlg : String) (expectedHash : Option String) :
    List PyVal → Option (Except RegError Bool)
  | [] => none
  | fileInfo :: rest =>
    if pyEqStr (pyGet fileInfo "file_name") fileName then
      if pyEqOpt (pyGet fileInfo ("file_" ++ hashAlg)) expectedHash then
        some (.ok true)
      else
        some (.error (.hashConflict (hashConflictMsg fileName)))
    else scanFiles fileName hashAlg expectedHash rest

/-- Outer package loop of `GitLabRegistry.has_package` (`registry.py`
lines 233-248): skip packages whose `name` differs; for a matching
package, fetch (cache-or-fetch) its file list and run the file scan;
fall through to the remaining packages when the scan finds no file, and
return `False` once the list is exhausted. -/
def hasPackageLoop (fetchApi : EndpointFetcher) (cfg : Config)
    (fileName packageName hashAlg : String) (expectedHash : Option String) :
    List PyVal → GState → Except RegError Bool × GState × List String
  | [], st => (.ok false, st, [])
  | pkg :: rest, st =>
    if pyEqStr (pyGet pkg "name") packageName then
      match fetch_package_files fetchApi cfg (pyGet pkg "id") st with
      | (.error e, st', log) => (.error e, st', log)
      | (.ok files, st', log) =>
        match scanFiles fileName hashAlg expectedHash files with
        | some r => (r, st', log)
        | none =>
          match hasPackageLoop fetchApi cfg fileName packageName hashAlg expectedHash rest st' with
          | (r, st'', log') => (r, st'', log ++ log')
    else hasPackageLoop fetchApi cfg fileName packageName hashAlg expectedHash rest st

/-- Shallow embedding of `GitLabRegistry.has_package` (`registry.py` lines
225-248): fetch the package list (cache-or-fetch), then scan it.  Returns
the call's outcome, the instance state after the call, and the log of
endpoint URLs fetched during the call. -/
def has_package (fetchApi : EndpointFetcher) (cfg : Config)
    (fileName packageName hashAlg : String) (expectedHash : Option String)
    (st : GState) : Except RegError Bool × GState × List String :=
  match fetch_packages_list fetchApi cfg st with
  | (.error e, st', log) => (.error e, st', log)
  | (.ok packages, st', log) =>
    match hasPackageLoop fetchApi cfg fileName packageName hashAlg expectedHash packages st' with
    | (r, st'', log') => (r, st'', log ++ log')

/-- Shallow embedding of `GitLabRegistry.clear_cache` (`registry.py` lines
250-253). -/
def clear_cache (_st : GState) : GState := ⟨none, []⟩

end GitLabRegistry

/-- Modelled Python `os.path.join` (POSIX, two components): an absolute
second component replaces the first, otherwise the components are joined
with exactly one `/`. -/
def pathJoin (a b : String) : String :=
  if b.toList.head? = some '/' then b
  else if a = "" ∨ a.toList.getLast? = some '/' then a ++ b
  else a ++ "/" ++ b

namespace LocalRegistry

/-- Shallow embedding of `LocalRegistry.has_package` (`registry.py` lines
57-78).  The filesystem and the injected hash capability enter as explicit
function parameters: `existsPath` models `os.path.exists`,
`hash_file_func` the injected `hash_file_func(target, hash_alg)`.  A falsy
expected hash (`None` or `""`) short-circuits to the existence check. -/
def has_package (hash_file_func : String → String → String)
    (existsPath : String → Bool) (indexPath : String)
    (fileName packageName hashAlg : String) (expectedHash : Option String) : Bool :=
  let target := pathJoin (pathJoin indexPath packageName) fileName
  if existsPath target then
    match expectedHash with
    | none => true
    | some h =>
      if h = "" then true
      else if hash_file_func target hashAlg = h then true
      else false
  else false

end LocalRegistry

namespace GitLabRegistry

/-- Relation bindings contributed by one `Link`-header parameter,
following the spec's words (§4.1): parameters are `name=value` split on
the first `=`, a parameter with no `=` contributes nothing, only `rel` is
meaningful, a quoted `rel` value splits on whitespace into several
relation tokens each bound to the section's URL, an unquoted value is a
single token, tokens are lowercased while the URL is kept verbatim. -/
def specParamBindings (url : List Char) (param0 : List Char) : List (String × String) :=
  let param := pyStrip param0
  match pySplitOnce '=' param with
  | none => []
  | some (name0, value0) =>
    let name := pyLower (pyStrip name0)
    let value := pyStrip value0
    if name ≠ "rel".toList then []
    else if value.head? = some '"' ∧ value.getLast? = some '"' then
      (pySplitWs ((value.drop 1).dropLast)).map
        (fun relType => (String.mk (pyLower relType), String.mk url))
    else [(String.mk (pyLower value), String.mk url)]

/-- Relation bindings contributed by one comma-separated section,
following the spec's words (§4.1): each section is `<url>; param=value;
...`, a section whose first segment is not of the form `<...>` is skipped
whole, and the section's parameters contribute their bindings in order,
all against this section's URL. -/
def specSectionBindings (sec0 : List Char) : List (String × String) :=
  let sec := pyStrip sec0
  if sec = [] then []
  else
    match pySplitChar ';' sec with
    | [] => []
    | urlPart0 :: params =>
      let urlPart := pyStrip urlPart0
      if urlPart.head? = some '<' ∧ urlPart.getLast? = some '>' then
        (params.map (specParamBindings ((urlPart.drop 1).dropLast))).flatten
      else []

/-- All relation bindings of a `Link` header in order of appearance,
following the spec's words (§4.1): sections are comma-separated and
processed left to right. -/
def specBindings (lh : String) : List (String × String) :=
  if lh = "" then []
  else ((pySplitChar ',' lh.toList).map specSectionBindings).flatten

/-- A chain of pages served by `server`: starting from URL `u`, the server
answers each URL in turn with a JSON-list body (the chain's items) and a
`Link` header whose parsed `next` relation points at the following,
NON-EMPTY URL (the source continues only on a truthy URL); `tail` is where
the chain hands over — `none` means the walk stops after the last page,
which per the source happens when the page has no `Link` header, its
parsed links have no `next` relation (both give `nextUrl ... = none`), or
the `next` relation's URL is the empty string (falsy in the loop
condition); `some u'` means the chain ends pointing at `u'`.  A chain of
zero pages starting at `u` just asserts `tail = some u`. -/
def PageChain (server : ApiServer) : String → List (List PyVal) → Option String → Prop
  | u, [], tail => tail = some u
  | u, items :: rest, tail =>
    ∃ resp, server u = .success resp ∧ resp.body = PyVal.list items ∧
      ((rest = [] ∧ tail = none ∧
          (nextUrl resp.linkHeader = none ∨ nextUrl resp.linkHeader = some "")) ∨
        ∃ u', nextUrl resp.linkHeader = some u' ∧ u' ≠ "" ∧ PageChain server u' rest tail)

end GitLabRegistry

/-- Python `needle in hay` check: `sub` is a contiguous prefix of `hay`. -/
def charsStartWith (needle hay : List Char) : Bool :=
  match needle, hay with
  | [], _ => true
  | _ :: _, [] => false
  | n :: ns, h :: hs => n = h && charsStartWith ns hs

/-- Python substring membership `needle in hay` on character lists. -/
def containsSub (hay needle : List Char) : Bool :=
  match hay with
  | [] => needle.isEmpty
  | _ :: t => charsStartWith needle hay || containsSub t needle

namespace GitLabRegistry

/-- An endpoint fetcher every call of which succeeds, serving `data`:
the view of `_fetch_paginated_api` in scenarios where the remote API is
reachable and well-formed. -/
def okFetcher (data : String → List PyVal) : EndpointFetcher :=
  fun u => .ok (data u)

/-- The caches of an instance agree with what the server `data` would
serve: the packages slot is unfetched or holds the package-list endpoint's
data, and every file-cache entry holds its id's endpoint data.  This holds
for a fresh instance (`initState`) and is preserved by every call made
with `okFetcher data`. -/
def CacheFaithful (data : String → List PyVal) (cfg : Config) (st : GState) : Prop :=
  (st.packagesCache = none ∨ st.packagesCache = some (data (packagesUrl cfg))) ∧
  ∀ p ∈ st.packageFilesCache, p.2 = data (packageFilesUrl cfg p.1)

/-- All items served by the API are JSON objects (dicts).  Python's
`dict.get` exists only on dicts — on other payload shapes `has_package`
would raise `AttributeError`, a shape the embedding's total `pyGet` does
not reproduce — so the `has_package` theorems restrict to dict-shaped
data, which is also the documented response shape. -/
def DictData (data : String → List PyVal) : Prop :=
  ∀ u v, v ∈ data u → ∃ kvs, v = PyVal.dict kvs

/-- Pure view of the package/file scan of `has_package` when every fetch
succeeds: `files` gives each package id's file list.  Used to relate the
stateful `hasPackageLoop` to the data it scans. -/
def scanPackages (files : PyVal → List PyVal) (fileName packageName hashAlg : String)
    (expectedHash : Option String) : List PyVal → Except RegError Bool
  | [] => .ok false
  | pkg :: rest =>
    if pyEqStr (pyGet pkg "name") packageName then
      match scanFiles fileName hashAlg expectedHash (files (pyGet pkg "id")) with
      | some r => r
      | none => scanPackages files fileName packageName hashAlg expectedHash rest
    else scanPackages files fileName packageName hashAlg expectedHash rest

end GitLabRegistry

example : GitLabRegistry.parse_link_header "<http://x/p2>; rel=\"next\"" =
    [("next", "http://x/p2")] := by decide

example : GitLabRegistry.parse_link_header "<http://x/a>; rel=\"next prev\", <http://x/b>; rel=NEXT" =
    [("next", "http://x/b"), ("prev", "http://x/a")] := by decide

example : GitLabRegistry.parse_link_header "" = [] := by decide

example : GitLabRegistry.parse_link_header "junk, <http://u>; q; rel=next" =
    [("next", "http://u")] := by decide

/-! Helper lemmas about the Python-dict model. -/

theorem dictGet_nil (k : String) : dictGet [] k = none := rfl

theorem dictGet_cons (p : String × String) (d : List (String × String)) (k : String) :
    dictGet (p :: d) k = if p.1 = k then some p.2 else dictGet d k := by
  by_cases h : p.1 = k <;> simp [dictGet, List.find?_cons, h]

theorem dictGet_replace (d : List (String × String)) (k' v k : String) :
    dictGet (d.map (fun p => if p.1 = k' then (k', v) else p)) k =
      if k = k' then (if d.any (fun p => p.1 = k') then some v else none)
      else dictGet d k := by
  induction d with
  | nil => by_cases h : k = k' <;> simp [h, dictGet]
  | cons p d ih =>
    by_cases hp : p.1 = k'
    · by_cases hk : k = k'
      · subst hk
        simp [List.map_cons, hp, dictGet_cons, ih]
      · have hpk : ¬p.1 = k := by rw [hp]; exact fun h => hk h.symm
        simp [List.map_cons, hp, dictGet_cons, ih, hk, hpk, Ne.symm hk]
    · by_cases hk : k = k'
      · subst hk
        have hp' : decide (p.1 = k) = false := by simpa using hp
        simp [List.map_cons, hp, dictGet_cons, ih]
        rw [hp', Bool.false_or]
      · by_cases hpk : p.1 = k <;>
          simp [List.map_cons, hp, dictGet_cons, ih, hk, hpk]

theorem dictGet_insert (d : List (String × String)) (k' v k : String) :
    dictGet (dictInsert d k' v) k = if k = k' then some v else dictGet d k := by
  unfold dictInsert
  by_cases hany : (d.any (fun p => decide (p.1 = k'))) = true
  · rw [if_pos hany, dictGet_replace]
    by_cases hk : k = k' <;> simp [hk, hany]
  · rw [if_neg hany]
    by_cases hk : k = k'
    · subst hk
      have hfd : List.find? (fun p => decide (p.1 = k)) d = none := by
        cases hf : List.find? (fun p => decide (p.1 = k)) d with
        | none => rfl
        | some x =>
          have hx := List.find?_some hf
          have hmem := List.mem_of_find?_eq_some hf
          exact absurd (List.any_eq_true.mpr ⟨x, hmem, hx⟩) hany
      simp [dictGet, List.find?_append, hfd]
    · have hne : (decide ((k', v).1 = k)) = false := by
        simp only [decide_eq_false_iff_not]
        exact fun h => hk h.symm
      simp only [dictGet, List.find?_append]
      cases hfd : List.find? (fun p => decide (p.1 = k)) d <;>
        simp [hfd, List.find?_cons, hne, hk]

theorem dictGet_foldl_insert (bs : List (String × String)) (d : List (String × String))
    (k : String) :
    dictGet (bs.foldl (fun acc b => dictInsert acc b.1 b.2) d) k =
      match (bs.filter (fun b => b.1 = k)).getLast? with
      | some b => some b.2
      | none => dictGet d k := by
  induction bs generalizing d with
  | nil => simp
  | cons b bs ih =>
    rw [List.foldl_cons, ih]
    by_cases hb : b.1 = k
    · rw [List.filter_cons_of_pos (by simp [hb])]
      cases hf : (bs.filter (fun b => b.1 = k)).getLast? with
      | none =>
        have : bs.filter (fun b => b.1 = k) = [] := by
          cases hl : bs.filter (fun b => b.1 = k) with
          | nil => rfl
          | cons x xs => rw [hl] at hf; simp [List.getLast?] at hf
        simp [this, dictGet_insert, hb]
      | some x =>
        have hne : bs.filter (fun b => b.1 = k) ≠ [] := by
          intro hc; rw [hc] at hf; simp at hf
        rw [show (b :: bs.filter (fun b => b.1 = k)) =
            [b] ++ bs.filter (fun b => b.1 = k) by rfl,
          List.getLast?_append_of_ne_nil _ hne, hf]
    · rw [List.filter_cons_of_neg (by simp [hb])]
      cases hf : (bs.filter (fun b => b.1 = k)).getLast? with
      | none => simp [dictGet_insert, Ne.symm hb, hb]
      | some x => simp

/-! Bridge from the imperative parser to the spec-level binding lists. -/

namespace GitLabRegistry

theorem processParam_eq_foldl (url : List Char) (links : List (String × String))
    (param0 : List Char) :
    processParam url links param0 =
      (specParamBindings url param0).foldl (fun acc b => dictInsert acc b.1 b.2) links := by
  simp only [processParam, specParamBindings]
  cases pySplitOnce '=' (pyStrip param0) with
  | none => rfl
  | some nv =>
    obtain ⟨name0, value0⟩ := nv
    dsimp only
    split_ifs with h1 h2
    · rfl
    · rw [List.foldl_map]
    · simp [List.foldl_cons]

theorem foldl_processParam_eq (url : List Char) (params : List (List Char))
    (links : List (String × String)) :
    params.foldl (processParam url) links =
      params.foldl
        (fun acc p => (specParamBindings url p).foldl (fun a b => dictInsert a b.1 b.2) acc)
        links := by
  induction params generalizing links with
  | nil => rfl
  | cons p ps ih => rw [List.foldl_cons, List.foldl_cons, processParam_eq_foldl, ih]

theorem processSection_eq_foldl (links : List (String × String)) (sec0 : List Char) :
    processSection links sec0 =
      (specSectionBindings sec0).foldl (fun acc b => dictInsert acc b.1 b.2) links := by
  simp only [processSection, specSectionBindings]
  by_cases h0 : pyStrip sec0 = []
  · simp [h0]
  · simp only [h0, if_false]
    cases pySplitChar ';' (pyStrip sec0) with
    | nil => rfl
    | cons urlPart0 params =>
      dsimp only
      split_ifs with h1
      · rw [List.foldl_flatten, List.foldl_map, foldl_processParam_eq]
      · rfl

theorem foldl_processSection_eq (secs : List (List Char)) (links : List (String × String)) :
    secs.foldl processSection links =
      secs.foldl
        (fun acc s => (specSectionBindings s).foldl (fun a b => dictInsert a b.1 b.2) acc)
        links := by
  induction secs generalizing links with
  | nil => rfl
  | cons s ss ih => rw [List.foldl_cons, List.foldl_cons, processSection_eq_foldl, ih]

theorem parse_link_header_eq_foldl (lh : String) :
    parse_link_header lh =
      (specBindings lh).foldl (fun acc b => dictInsert acc b.1 b.2) [] := by
  unfold parse_link_header specBindings
  by_cases h : lh = ""
  · simp [h]
  · simp only [h, if_false]
    rw [List.foldl_flatten, List.foldl_map, foldl_processSection_eq]

/-- C3: for every input string, `_parse_link_header` maps each relation
token to a URL following the spec's reading: each section contributes the
bindings of `specSectionBindings` (quoted `rel` values split on whitespace
into several tokens bound to that section's URL, unquoted values are a
single token, tokens lowercased, URLs verbatim), and a lookup returns the
URL of the LAST binding for that token in left-to-right section order
(later sections overwrite earlier ones). -/
theorem parse_link_header_lookup_spec (lh : String) (rel : String) :
    dictGet (parse_link_header lh) rel =
      ((specBindings lh).filter (fun b => b.1 = rel)).getLast?.map Prod.snd := by
  rw [parse_link_header_eq_foldl, dictGet_foldl_insert]
  cases ((specBindings lh).filter (fun b => b.1 = rel)).getLast? <;> simp [dictGet]

end GitLabRegistry

namespace GitLabRegistry

theorem processSection_skip (links : List (String × String)) (sec0 : List Char)
    (urlPart0 : List Char) (params : List (List Char))
    (hsplit : pySplitChar ';' (pyStrip sec0) = urlPart0 :: params)
    (hbad : ¬((pyStrip urlPart0).head? = some '<' ∧ (pyStrip urlPart0).getLast? = some '>')) :
    processSection links sec0 = links := by
  simp only [processSection]
  by_cases h0 : pyStrip sec0 = []
  · simp [h0]
  · simp only [h0, if_false]
    rw [hsplit]
    dsimp only
    rw [if_neg hbad]

theorem processParam_skip (url : List Char) (links : List (String × String))
    (p : List Char) (h : pySplitOnce '=' (pyStrip p) = none) :
    processParam url links p = links := by
  simp only [processParam]
  rw [h]

/-- C8: the `Link`-header parser is total (each of `parse_link_header`,
`processSection`, `processParam` is a total Lean function, so no input can
make the parse raise).  Moreover a section whose first `;`-segment is not
of the `<...>` form is skipped exactly — processing a section list with
such a section inserted equals processing the list without it, so the
remaining sections are still processed — and a parameter containing no
`=` is skipped individually while the rest of that section's parameters
are still processed. -/
theorem parse_link_header_skips_malformed
    (init : List (String × String)) (pre post : List (List Char)) (bad : List Char)
    (url : List Char) (preP postP : List (List Char)) (badP : List Char)
    (urlPart0 : List Char) (params : List (List Char))
    (hsplit : pySplitChar ';' (pyStrip bad) = urlPart0 :: params)
    (hbad : ¬((pyStrip urlPart0).head? = some '<' ∧ (pyStrip urlPart0).getLast? = some '>'))
    (hbadP : pySplitOnce '=' (pyStrip badP) = none) :
    ((pre ++ bad :: post).foldl processSection init =
        (pre ++ post).foldl processSection init) ∧
    ((preP ++ badP :: postP).foldl (processParam url) init =
        (preP ++ postP).foldl (processParam url) init) ∧
    (∀ lh : String, lh ≠ "" →
      parse_link_header lh = (pySplitChar ',' lh.toList).foldl processSection []) := by
  refine ⟨?_, ?_, ?_⟩
  · rw [List.foldl_append, List.foldl_append, List.foldl_cons,
      processSection_skip _ bad urlPart0 params hsplit hbad]
  · rw [List.foldl_append, List.foldl_append, List.foldl_cons,
      processParam_skip url _ badP hbadP]
  · intro lh hlh
    simp [parse_link_header, hlh]

end GitLabRegistry

namespace GitLabRegistry

theorem fetchLoop_empty_url (server : ApiServer) (name : String) (fuel : Nat)
    (acc : List PyVal) :
    fetchLoop server name fuel (some "") acc = some (.ok acc) := by
  cases fuel <;> simp [fetchLoop]

theorem api_url_ne_empty (apiUrl : String) : apiUrl ++ "?per_page=100" ≠ "" := by
  intro h
  have hlen := congrArg String.length h
  have h13 : ("?per_page=100" : String).length = 13 := rfl
  have h0 : ("" : String).length = 0 := rfl
  rw [String.length_append, h13, h0] at hlen
  omega

theorem PageChain_tail_ne (server : ApiServer) :
    ∀ (pages : List (List PyVal)) (u u' : String),
      PageChain server u pages (some u') → u ≠ "" → u' ≠ "" := by
  intro pages
  induction pages with
  | nil =>
    intro u u' hchain hu
    simp only [PageChain, Option.some.injEq] at hchain
    subst hchain
    exact hu
  | cons items rest ih =>
    intro u u' hchain hu
    obtain ⟨resp, -, -, hcont⟩ := hchain
    rcases hcont with ⟨-, hnone, -⟩ | ⟨u'', -, hu'', hchain'⟩
    · exact absurd hnone (by simp)
    · exact ih u'' u' hchain' hu''

theorem fetchLoop_chain_none (server : ApiServer) (name : String) :
    ∀ (pages : List (List PyVal)) (u : String) (fuel : Nat) (acc : List PyVal),
      PageChain server u pages none → u ≠ "" → pages.length ≤ fuel →
      fetchLoop server name fuel (some u) acc = some (.ok (acc ++ pages.flatten)) := by
  intro pages
  induction pages with
  | nil => intro u fuel acc hchain hu; simp [PageChain] at hchain
  | cons items rest ih =>
    intro u fuel acc hchain hu hfuel
    obtain ⟨resp, hs, hb, hcont⟩ := hchain
    cases fuel with
    | zero => simp at hfuel
    | succ f =>
      rw [show fetchLoop server name (f + 1) (some u) acc =
          (if u = "" then some (.ok acc)
          else
            match server u with
            | .failure _ =>
              some (.error (.protocolError ("Failed to read data from " ++ u)))
            | .success resp =>
              match resp.body with
              | .list pageData =>
                fetchLoop server name f (nextUrl resp.linkHeader) (acc ++ pageData)
              | other =>
                some (.error (.protocolError
                  ("Unexpected response format from " ++ name ++ ", expected a list: " ++
                    pyToString other)))) from rfl, if_neg hu, hs]
      have hf' : rest.length ≤ f := by simp at hfuel; omega
      rcases hcont with ⟨hrest, -, hnext⟩ | ⟨u', hnext, hu', hchain'⟩
      · subst hrest
        dsimp only
        rw [hb]
        dsimp only
        rcases hnext with hnext | hnext
        · rw [hnext]
          simp [fetchLoop]
        · rw [hnext, fetchLoop_empty_url]
          simp
      · dsimp only
        rw [hb]
        dsimp only
        rw [hnext, ih u' f (acc ++ items) hchain' hu' hf']
        simp

theorem fetchLoop_chain_some (server : ApiServer) (name : String) :
    ∀ (pages : List (List PyVal)) (u : String) (u' : String) (fuel : Nat) (acc : List PyVal),
      PageChain server u pages (some u') → u ≠ "" → pages.length ≤ fuel →
      fetchLoop server name fuel (some u) acc =
        fetchLoop server name (fuel - pages.length) (some u') (acc ++ pages.flatten) := by
  intro pages
  induction pages with
  | nil =>
    intro u u' fuel acc hchain _ _
    simp only [PageChain, Option.some.injEq] at hchain
    subst hchain
    simp
  | cons items rest ih =>
    intro u u' fuel acc hchain hu hfuel
    obtain ⟨resp, hs, hb, hcont⟩ := hchain
    cases fuel with
    | zero => simp at hfuel
    | succ f =>
      rw [show fetchLoop server name (f + 1) (some u) acc =
          (if u = "" then some (.ok acc)
          else
            match server u with
            | .failure _ =>
              some (.error (.protocolError ("Failed to read data from " ++ u)))
            | .success resp =>
              match resp.body with
              | .list pageData =>
                fetchLoop server name f (nextUrl resp.linkHeader) (acc ++ pageData)
              | other =>
                some (.error (.protocolError
                  ("Unexpected response format from " ++ name ++ ", expected a list: " ++
                    pyToString other)))) from rfl, if_neg hu, hs]
      have hf' : rest.length ≤ f := by simp at hfuel; omega
      rcases hcont with ⟨-, hnone, -⟩ | ⟨u'', hnext, hu'', hchain'⟩
      · exact absurd hnone (by simp)
      · dsimp only
        rw [hb]
        dsimp only
        rw [hnext, ih u'' u' f (acc ++ items) hchain' hu'' hf']
        simp [Nat.succ_sub_succ]

theorem fetchLoop_failure_step (server : ApiServer) (name : String) (fuel : Nat)
    (u : String) (acc : List PyVal) (msg : String) (hu : u ≠ "")
    (h : server u = .failure msg) :
    fetchLoop server name (fuel + 1) (some u) acc =
      some (.error (.protocolError ("Failed to read data from " ++ u))) := by
  simp [fetchLoop, hu, h]

theorem fetchLoop_nonlist_step (server : ApiServer) (name : String) (fuel : Nat)
    (u : String) (acc : List PyVal) (resp : HttpResponse) (hu : u ≠ "")
    (h : server u = .success resp) (hb : ∀ l, resp.body ≠ PyVal.list l) :
    fetchLoop server name (fuel + 1) (some u) acc =
      some (.error (.protocolError ("Unexpected response format from " ++ name ++
        ", expected a list: " ++ pyToString resp.body))) := by
  simp only [fetchLoop, if_neg hu, h]

/-- C2 (amended): for every chain of pages served by the remote API,
`_fetch_paginated_api` returns the concatenation of all pages' items in
page order with in-page order preserved (`pages.flatten`): the walk starts
at the initial URL with `?per_page=100` appended, follows the URL of the
`next` relation parsed out of each page's `Link` header (`nextUrl` uses
`parse_link_header`), and stops exactly when a page has no `Link` header,
its parsed links contain no `next` relation, OR the `next` relation's URL
is the empty string — the falsy value on which the source's
`while current_url:` also exits (the `tail = none` clause of `PageChain`;
see the counterexample theorem for why the empty-URL stop is needed). -/
theorem fetch_paginated_api_concatenates_pages (server : ApiServer) (name : String)
    (apiUrl : String) (pages : List (List PyVal)) (fuel : Nat)
    (hchain : PageChain server (apiUrl ++ "?per_page=100") pages none)
    (hfuel : pages.length ≤ fuel) :
    fetch_paginated_api server name fuel apiUrl = some (.ok pages.flatten) := by
  unfold fetch_paginated_api
  rw [fetchLoop_chain_none server name pages _ fuel [] hchain
    (api_url_ne_empty apiUrl) hfuel]
  simp

/-- C2 counterexample: the claim says the walk "stops exactly when a page
has no `Link` header or its parsed links contain no `next` relation", but
the source also stops when the parsed `next` relation's URL is the empty
string (`while current_url:` is a falsiness test).  Concretely: the first
page's header `<>; rel="next"` parses to a mapping that DOES contain a
`next` relation (bound to `""`), and the server would answer `""` with a
further list page `[2]`; the claim then demands the concatenation
`[1, 2]` of both pages, but the walk returns only the first page's items
`[1]`. -/
theorem fetch_paginated_api_empty_next_counterexample :
    fetch_paginated_api
        (fun u =>
          if u = "http://api/things?per_page=100"
          then .success ⟨PyVal.list [PyVal.int 1], some "<>; rel=\"next\""⟩
          else .success ⟨PyVal.list [PyVal.int 2], none⟩)
        "GitLab (http://api)" 5 "http://api/things" = some (.ok [PyVal.int 1]) ∧
    dictGet (parse_link_header "<>; rel=\"next\"") "next" = some "" ∧
    (fun u =>
      if u = "http://api/things?per_page=100"
      then FetchOutcome.success ⟨PyVal.list [PyVal.int 1], some "<>; rel=\"next\""⟩
      else .success ⟨PyVal.list [PyVal.int 2], none⟩) "" =
      .success ⟨PyVal.list [PyVal.int 2], none⟩ ∧
    fetch_paginated_api
        (fun u =>
          if u = "http://api/things?per_page=100"
          then .success ⟨PyVal.list [PyVal.int 1], some "<>; rel=\"next\""⟩
          else .success ⟨PyVal.list [PyVal.int 2], none⟩)
        "GitLab (http://api)" 5 "http://api/things" ≠
      some (.ok [PyVal.int 1, PyVal.int 2]) := by
  refine ⟨rfl, rfl, rfl, ?_⟩
  intro h
  have h2 : some (Except.ok (ε := RegError) [PyVal.int 1]) =
      some (.ok [PyVal.int 1, PyVal.int 2]) := h
  simp at h2

/-- C4: during a pagination walk (a served chain of good pages ending at a
URL `ubad` — which, being a URL the loop actually continues with, is
non-empty by `PageChain_tail_ne`), if the request at `ubad` fails at
transport or JSON-decode level, `_fetch_paginated_api` fails with the
wrapping protocol error naming that URL; if the request succeeds but the
parsed body is not a list, it fails with the protocol error whose message
includes the offending payload (`pyToString resp.body`).  In both cases
the value returned to the caller is exactly the error — the items of the
already-fetched pages are not returned. -/
theorem fetch_paginated_api_error_behaviour (server : ApiServer) (name : String)
    (apiUrl : String) (pages : List (List PyVal)) (ubad : String) (fuel : Nat)
    (hchain : PageChain server (apiUrl ++ "?per_page=100") pages (some ubad))
    (hfuel : pages.length < fuel) :
    (∀ msg, server ubad = .failure msg →
      fetch_paginated_api server name fuel apiUrl =
        some (.error (.protocolError ("Failed to read data from " ++ ubad)))) ∧
    (∀ resp, server ubad = .success resp → (∀ l, resp.body ≠ PyVal.list l) →
      fetch_paginated_api server name fuel apiUrl =
        some (.error (.protocolError ("Unexpected response format from " ++ name ++
          ", expected a list: " ++ pyToString resp.body)))) := by
  have hne : ubad ≠ "" :=
    PageChain_tail_ne server pages _ ubad hchain (api_url_ne_empty apiUrl)
  have key := fetchLoop_chain_some server name pages (apiUrl ++ "?per_page=100") ubad fuel []
    hchain (api_url_ne_empty apiUrl) (Nat.le_of_lt hfuel)
  obtain ⟨k, hk⟩ : ∃ k, fuel - pages.length = k + 1 :=
    ⟨fuel - pages.length - 1, by omega⟩
  constructor
  · intro msg hbadres
    unfold fetch_paginated_api
    rw [key, hk, fetchLoop_failure_step server name k ubad _ msg hne hbadres]
  · intro resp hbadres hnl
    unfold fetch_paginated_api
    rw [key, hk, fetchLoop_nonlist_step server name k ubad _ resp hne hbadres hnl]

end GitLabRegistry

/-- C6: `LocalRegistry.has_package` returns false when the target path
`{index_path}/{package_name}/{file_name}` does not exist; returns true
when it exists and the expected hash is absent (`None`) or empty (both are
falsy in the source's `if not expected_hash`); and otherwise returns true
exactly when the injected hash capability applied to the target path with
`hash_alg` equals the expected hash — a mismatch produces `false`, never
an error (the embedding is a total `Bool`-valued function). -/
theorem LocalRegistry.has_package_spec (hash_file_func : String → String → String)
    (existsPath : String → Bool) (indexPath fileName packageName hashAlg : String) :
    (existsPath (pathJoin (pathJoin indexPath packageName) fileName) = false →
      ∀ expectedHash, LocalRegistry.has_package hash_file_func existsPath indexPath
        fileName packageName hashAlg expectedHash = false) ∧
    (existsPath (pathJoin (pathJoin indexPath packageName) fileName) = true →
      LocalRegistry.has_package hash_file_func existsPath indexPath
          fileName packageName hashAlg none = true ∧
        LocalRegistry.has_package hash_file_func existsPath indexPath
          fileName packageName hashAlg (some "") = true) ∧
    (∀ h, h ≠ "" →
      existsPath (pathJoin (pathJoin indexPath packageName) fileName) = true →
      (LocalRegistry.has_package hash_file_func existsPath indexPath
          fileName packageName hashAlg (some h) = true ↔
        hash_file_func (pathJoin (pathJoin indexPath packageName) fileName) hashAlg = h)) := by
  refine ⟨?_, ?_, ?_⟩
  · intro he expectedHash
    simp [LocalRegistry.has_package, he]
  · intro he
    constructor <;> simp [LocalRegistry.has_package, he]
  · intro h hne he
    simp only [LocalRegistry.has_package, he]
    constructor
    · intro htrue
      by_contra hc
      simp [hne, hc] at htrue
    · intro hh
      simp [hne, hh]

/-- Witness for the C6 theorem at a concrete instance: an existing path
whose hash capability answers `"abc"`, queried with the matching expected
hash. -/
theorem LocalRegistry.has_package_spec_witness :
    LocalRegistry.has_package (fun _ _ => "abc") (fun _ => true) "idx"
      "f-1.0.tar.gz" "pkg" "sha256" (some "abc") = true :=
  ((LocalRegistry.has_package_spec (fun _ _ => "abc") (fun _ => true) "idx"
    "f-1.0.tar.gz" "pkg" "sha256").2.2 "abc" (by decide) rfl).mpr rfl

/-! Helper lemmas about Python-dict key equality and the file cache. -/

theorem pyKeyEq_eq {a b : PyVal} (h : pyKeyEq a b = true) : a = b := by
  cases a <;> cases b <;> simp_all [pyKeyEq]

theorem pyKeyEq_refl_hashable {v : PyVal} (h : pyHashable v = true) :
    pyKeyEq v v = true := by
  cases v <;> simp_all [pyKeyEq, pyHashable]

namespace GitLabRegistry

theorem cacheGet_append_some (c : List (PyVal × List PyVal)) (pid pid' : PyVal)
    (v l : List PyVal) (h : cacheGet c pid' = some l) :
    cacheGet (c ++ [(pid, v)]) pid' = some l := by
  simp only [cacheGet] at h ⊢
  rw [List.find?_append]
  cases hf : List.find? (fun p => pyKeyEq p.1 pid') c with
  | none => rw [hf] at h; simp at h
  | some p => rw [hf] at h; simpa using h

theorem cacheGet_find?_none (c : List (PyVal × List PyVal)) (pid : PyVal)
    (h : cacheGet c pid = none) :
    List.find? (fun p => pyKeyEq p.1 pid) c = none := by
  simp only [cacheGet] at h
  cases hf : List.find? (fun p => pyKeyEq p.1 pid) c with
  | none => rfl
  | some p => rw [hf] at h; simp at h

theorem cacheGet_none_any (c : List (PyVal × List PyVal)) (pid : PyVal)
    (h : cacheGet c pid = none) :
    c.any (fun p => pyKeyEq p.1 pid) = false := by
  have hf := cacheGet_find?_none c pid h
  rw [List.find?_eq_none] at hf
  simp only [List.any_eq_false]
  intro p hp
  simpa using hf p hp

theorem cacheSet_of_miss (c : List (PyVal × List PyVal)) (pid : PyVal) (v : List PyVal)
    (h : cacheGet c pid = none) : cacheSet c pid v = c ++ [(pid, v)] := by
  simp only [cacheSet, cacheGet_none_any c pid h]
  rfl

theorem cacheGet_append_self (c : List (PyVal × List PyVal)) (pid : PyVal)
    (v : List PyVal) (hh : pyHashable pid = true) (h : cacheGet c pid = none) :
    cacheGet (c ++ [(pid, v)]) pid = some v := by
  have hf := cacheGet_find?_none c pid h
  simp only [cacheGet]
  rw [List.find?_append, hf]
  simp [List.find?_cons, pyKeyEq_refl_hashable hh]

end GitLabRegistry

namespace GitLabRegistry

theorem fetch_package_files_cases (fetchApi : EndpointFetcher) (cfg : Config) (pid : PyVal)
    (st : GState) :
    (∃ l, cacheGet st.packageFilesCache pid = some l ∧
      fetch_package_files fetchApi cfg pid st = (.ok l, st, [])) ∨
    (cacheGet st.packageFilesCache pid = none ∧
      ((∃ l, fetchApi (packageFilesUrl cfg pid) = .ok l ∧
        fetch_package_files fetchApi cfg pid st =
          (.ok l, { st with packageFilesCache := st.packageFilesCache ++ [(pid, l)] },
            [packageFilesUrl cfg pid])) ∨
       (∃ m, fetchApi (packageFilesUrl cfg pid) = .error m ∧
        fetch_package_files fetchApi cfg pid st =
          (.error (.protocolError m), st, [packageFilesUrl cfg pid])))) := by
  cases hc : cacheGet st.packageFilesCache pid with
  | some l =>
    exact .inl ⟨l, rfl, by simp [fetch_package_files, hc]⟩
  | none =>
    cases hfa : fetchApi (packageFilesUrl cfg pid) with
    | ok l =>
      exact .inr ⟨rfl, .inl ⟨l, rfl,
        by simp [fetch_package_files, hc, hfa, cacheSet_of_miss _ _ _ hc]⟩⟩
    | error m =>
      exact .inr ⟨rfl, .inr ⟨m, rfl, by simp [fetch_package_files, hc, hfa]⟩⟩

theorem scanFiles_of_find? (fileName hashAlg : String) (expectedHash : Option String)
    (files : List PyVal) (fileRec : PyVal)
    (hfind : files.find? (fun f => pyEqStr (pyGet f "file_name") fileName) = some fileRec) :
    scanFiles fileName hashAlg expectedHash files =
      some (if pyEqOpt (pyGet fileRec ("file_" ++ hashAlg)) expectedHash then .ok true
        else .error (.hashConflict (hashConflictMsg fileName))) := by
  induction files with
  | nil => simp at hfind
  | cons f rest ih =>
    by_cases hname : pyEqStr (pyGet f "file_name") fileName = true
    · rw [List.find?_cons, hname] at hfind
      obtain rfl : f = fileRec := by simpa using hfind
      simp only [scanFiles, hname, if_true]
      split_ifs with hopt <;> simp
    · have hname' : pyEqStr (pyGet f "file_name") fileName = false := by
        simpa using hname
      rw [List.find?_cons, hname'] at hfind
      simp only [scanFiles, hname', Bool.false_eq_true, if_false]
      exact ih hfind

theorem scanFiles_eq_none_iff (fileName hashAlg : String) (expectedHash : Option String)
    (files : List PyVal) :
    scanFiles fileName hashAlg expectedHash files = none ↔
      ∀ f ∈ files, pyEqStr (pyGet f "file_name") fileName = false := by
  induction files with
  | nil => simp [scanFiles]
  | cons f rest ih =>
    by_cases hname : pyEqStr (pyGet f "file_name") fileName = true
    · simp only [scanFiles, hname, if_true]
      constructor
      · intro h
        split_ifs at h
      · intro h
        have := h f (by simp)
        rw [hname] at this
        simp at this
    · have hname' : pyEqStr (pyGet f "file_name") fileName = false := by
        simpa using hname
      simp only [scanFiles, hname', Bool.false_eq_true, if_false]
      rw [ih]
      constructor
      · intro h g hg
        rcases List.mem_cons.mp hg with rfl | hg'
        · exact hname'
        · exact h g hg'
      · intro h g hg
        exact h g (List.mem_cons_of_mem _ hg)

theorem scanFiles_error_msg (fileName hashAlg : String) (expectedHash : Option String)
    (files : List PyVal) (e : RegError)
    (h : scanFiles fileName hashAlg expectedHash files = some (.error e)) :
    e = .hashConflict (hashConflictMsg fileName) := by
  induction files with
  | nil => simp [scanFiles] at h
  | cons f rest ih =>
    by_cases hname : pyEqStr (pyGet f "file_name") fileName = true
    · simp only [scanFiles, hname, if_true] at h
      split_ifs at h with hopt
      · simp at h
      · simpa using h.symm
    · have hname' : pyEqStr (pyGet f "file_name") fileName = false := by
        simpa using hname
      simp only [scanFiles, hname', Bool.false_eq_true, if_false] at h
      exact ih h

end GitLabRegistry

namespace GitLabRegistry

theorem fetch_packages_list_cases (fetchApi : EndpointFetcher) (cfg : Config) (st : GState) :
    (∃ l, st.packagesCache = some l ∧ fetch_packages_list fetchApi cfg st = (.ok l, st, [])) ∨
    (st.packagesCache = none ∧
      ((∃ l, fetchApi (packagesUrl cfg) = .ok l ∧ fetch_packages_list fetchApi cfg st =
          (.ok l, { st with packagesCache := some l }, [packagesUrl cfg])) ∨
       (∃ m, fetchApi (packagesUrl cfg) = .error m ∧ fetch_packages_list fetchApi cfg st =
          (.error (.protocolError m), st, [packagesUrl cfg])))) := by
  cases hc : st.packagesCache with
  | some l => exact .inl ⟨l, rfl, by simp [fetch_packages_list, hc]⟩
  | none =>
    cases hfa : fetchApi (packagesUrl cfg) with
    | ok l => exact .inr ⟨rfl, .inl ⟨l, rfl, by simp [fetch_packages_list, hc, hfa]⟩⟩
    | error m => exact .inr ⟨rfl, .inr ⟨m, rfl, by simp [fetch_packages_list, hc, hfa]⟩⟩

theorem fpf_faithful (data : String → List PyVal) (cfg : Config) (pid : PyVal) (st : GState)
    (hf : CacheFaithful data cfg st) :
    ∃ st' log, fetch_package_files (okFetcher data) cfg pid st =
        (.ok (data (packageFilesUrl cfg pid)), st', log) ∧
      CacheFaithful data cfg st' ∧ st'.packagesCache = st.packagesCache := by
  rcases fetch_package_files_cases (okFetcher data) cfg pid st with
    ⟨l, hc, heq⟩ | ⟨hc, ⟨l, hfa, heq⟩ | ⟨m, hfa, heq⟩⟩
  · obtain ⟨p, hpmem, hpkey, hpval⟩ :
        ∃ p, p ∈ st.packageFilesCache ∧ pyKeyEq p.1 pid = true ∧ p.2 = l := by
      simp only [cacheGet] at hc
      cases hfind : List.find? (fun p => pyKeyEq p.1 pid) st.packageFilesCache with
      | none => rw [hfind] at hc; simp at hc
      | some p =>
        rw [hfind] at hc
        exact ⟨p, List.mem_of_find?_eq_some hfind,
          by simpa using List.find?_some hfind, by simpa using hc⟩
    have hl : l = data (packageFilesUrl cfg pid) := by
      rw [← hpval, hf.2 p hpmem, pyKeyEq_eq hpkey]
    exact ⟨st, [], by rw [heq, hl], hf, rfl⟩
  · have hl : l = data (packageFilesUrl cfg pid) := by
      have : Except.ok (ε := String) (data (packageFilesUrl cfg pid)) = .ok l := hfa
      simpa using this.symm
    subst hl
    refine ⟨_, _, heq, ⟨hf.1, ?_⟩, rfl⟩
    intro p hp
    rcases List.mem_append.mp hp with hp' | hp'
    · exact hf.2 p hp'
    · have : p = (pid, data (packageFilesUrl cfg pid)) := by simpa using hp'
      rw [this]
  · exact absurd hfa (by simp [okFetcher])

theorem hasPackageLoop_scan (data : String → List PyVal) (cfg : Config)
    (fileName packageName hashAlg : String) (expectedHash : Option String) :
    ∀ (pkgs : List PyVal) (st : GState), CacheFaithful data cfg st →
    ∃ st' log,
      hasPackageLoop (okFetcher data) cfg fileName packageName hashAlg expectedHash pkgs st =
        (scanPackages (fun pid => data (packageFilesUrl cfg pid)) fileName packageName
          hashAlg expectedHash pkgs, st', log) ∧
      CacheFaithful data cfg st' ∧ st'.packagesCache = st.packagesCache := by
  intro pkgs
  induction pkgs with
  | nil => exact fun st hf => ⟨st, [], rfl, hf, rfl⟩
  | cons pkg rest ih =>
    intro st hf
    by_cases hname : pyEqStr (pyGet pkg "name") packageName = true
    · obtain ⟨st1, log1, heq1, hf1, hpc1⟩ := fpf_faithful data cfg (pyGet pkg "id") st hf
      simp only [hasPackageLoop, scanPackages, hname, if_true, heq1]
      cases hscan : scanFiles fileName hashAlg expectedHash
          (data (packageFilesUrl cfg (pyGet pkg "id"))) with
      | some r => exact ⟨st1, log1, rfl, hf1, hpc1⟩
      | none =>
        obtain ⟨st2, log2, heq2, hf2, hpc2⟩ := ih st1 hf1
        rw [heq2]
        exact ⟨st2, log1 ++ log2, rfl, hf2, hpc2.trans hpc1⟩
    · have hname' : pyEqStr (pyGet pkg "name") packageName = false := by simpa using hname
      simp only [hasPackageLoop, scanPackages, hname', Bool.false_eq_true, if_false]
      exact ih st hf

theorem has_package_scan (data : String → List PyVal) (cfg : Config)
    (fileName packageName hashAlg : String) (expectedHash : Option String) (st : GState)
    (hf : CacheFaithful data cfg st) :
    (has_package (okFetcher data) cfg fileName packageName hashAlg expectedHash st).1 =
      scanPackages (fun pid => data (packageFilesUrl cfg pid)) fileName packageName hashAlg
        expectedHash (data (packagesUrl cfg)) := by
  rcases fetch_packages_list_cases (okFetcher data) cfg st with
    ⟨l, hc, heq⟩ | ⟨hc, ⟨l, hfa, heq⟩ | ⟨m, hfa, heq⟩⟩
  · have hl : l = data (packagesUrl cfg) := by
      rcases hf.1 with hnone | hsome
      · rw [hnone] at hc; exact absurd hc (by simp)
      · rw [hsome] at hc; simpa using hc.symm
    subst hl
    obtain ⟨st1, log1, heq1, _, _⟩ :=
      hasPackageLoop_scan data cfg fileName packageName hashAlg expectedHash
        (data (packagesUrl cfg)) st hf
    simp only [has_package, heq, heq1]
  · have hl : l = data (packagesUrl cfg) := by
      have : Except.ok (ε := String) (data (packagesUrl cfg)) = .ok l := hfa
      simpa using this.symm
    subst hl
    obtain ⟨st1, log1, heq1, _, _⟩ :=
      hasPackageLoop_scan data cfg fileName packageName hashAlg expectedHash
        (data (packagesUrl cfg)) { st with packagesCache := some (data (packagesUrl cfg)) }
        ⟨Or.inr rfl, hf.2⟩
    simp only [has_package, heq, heq1]
  · exact absurd hfa (by simp [okFetcher])

end GitLabRegistry

namespace GitLabRegistry

theorem scanFiles_some_ne_false (fileName hashAlg : String) (expectedHash : Option String) :
    ∀ (files : List PyVal) (r : Except RegError Bool),
      scanFiles fileName hashAlg expectedHash files = some r → r ≠ .ok false := by
  intro files
  induction files with
  | nil => intro r h; simp [scanFiles] at h
  | cons f rest ih =>
    intro r h
    by_cases hname : pyEqStr (pyGet f "file_name") fileName = true
    · simp only [scanFiles, hname, if_true] at h
      split_ifs at h with hopt <;> simp only [Option.some.injEq] at h <;> simp [← h]
    · have hname' : pyEqStr (pyGet f "file_name") fileName = false := by simpa using hname
      simp only [scanFiles, hname', Bool.false_eq_true, if_false] at h
      exact ih r h

theorem scanPackages_first_match (files : PyVal → List PyVal)
    (fileName packageName hashAlg : String) (expectedHash : Option String) :
    ∀ (pkgs : List PyVal) (pkgM fileRec : PyVal),
    pkgs.find? (fun pkg => pyEqStr (pyGet pkg "name") packageName &&
      (files (pyGet pkg "id")).any (fun f => pyEqStr (pyGet f "file_name") fileName))
      = some pkgM →
    (files (pyGet pkgM "id")).find? (fun f => pyEqStr (pyGet f "file_name") fileName)
      = some fileRec →
    scanPackages files fileName packageName hashAlg expectedHash pkgs =
      (if pyEqOpt (pyGet fileRec ("file_" ++ hashAlg)) expectedHash then .ok true
        else .error (.hashConflict (hashConflictMsg fileName))) := by
  intro pkgs
  induction pkgs with
  | nil => intro pkgM fileRec h; simp at h
  | cons pkg rest ih =>
    intro pkgM fileRec hfind hfile
    rw [List.find?_cons] at hfind
    by_cases hpred : (pyEqStr (pyGet pkg "name") packageName &&
        (files (pyGet pkg "id")).any (fun f => pyEqStr (pyGet f "file_name") fileName)) = true
    · rw [hpred] at hfind
      obtain rfl : pkg = pkgM := by simpa using hfind
      obtain ⟨hname, -⟩ := Bool.and_eq_true_iff.mp hpred
      simp only [scanPackages, hname, if_true]
      rw [scanFiles_of_find? fileName hashAlg expectedHash _ fileRec hfile]
    · have hpred' : (pyEqStr (pyGet pkg "name") packageName &&
          (files (pyGet pkg "id")).any (fun f => pyEqStr (pyGet f "file_name") fileName))
          = false := by simpa using hpred
      rw [hpred'] at hfind
      by_cases hname : pyEqStr (pyGet pkg "name") packageName = true
      · have hany : (files (pyGet pkg "id")).any
            (fun f => pyEqStr (pyGet f "file_name") fileName) = false := by
          simpa [hname] using hpred'
        have hnone : scanFiles fileName hashAlg expectedHash (files (pyGet pkg "id"))
            = none := by
          rw [scanFiles_eq_none_iff]
          intro f hfmem
          have := List.any_eq_false.mp hany f hfmem
          simpa using this
        simp only [scanPackages, hname, if_true, hnone]
        exact ih pkgM fileRec hfind hfile
      · have hname' : pyEqStr (pyGet pkg "name") packageName = false := by simpa using hname
        simp only [scanPackages, hname', Bool.false_eq_true, if_false]
        exact ih pkgM fileRec hfind hfile

theorem scanPackages_false_iff (files : PyVal → List PyVal)
    (fileName packageName hashAlg : String) (expectedHash : Option String) :
    ∀ pkgs : List PyVal,
    (scanPackages files fileName packageName hashAlg expectedHash pkgs = .ok false ↔
      ∀ pkg ∈ pkgs, pyEqStr (pyGet pkg "name") packageName = true →
        ∀ f ∈ files (pyGet pkg "id"), pyEqStr (pyGet f "file_name") fileName = false) := by
  intro pkgs
  induction pkgs with
  | nil => simp [scanPackages]
  | cons pkg rest ih =>
    by_cases hname : pyEqStr (pyGet pkg "name") packageName = true
    · simp only [scanPackages, hname, if_true]
      cases hscan : scanFiles fileName hashAlg expectedHash (files (pyGet pkg "id")) with
      | none =>
        have hall := (scanFiles_eq_none_iff fileName hashAlg expectedHash _).mp hscan
        rw [ih]
        constructor
        · intro h g hg hgname
          rcases List.mem_cons.mp hg with rfl | hg'
          · exact fun f hf => hall f hf
          · exact h g hg' hgname
        · intro h g hg hgname
          exact h g (List.mem_cons_of_mem _ hg) hgname
      | some r =>
        have hr := scanFiles_some_ne_false fileName hashAlg expectedHash _ r hscan
        have hex : ¬∀ f ∈ files (pyGet pkg "id"),
            pyEqStr (pyGet f "file_name") fileName = false := by
          intro hc
          rw [← scanFiles_eq_none_iff fileName hashAlg expectedHash] at hc
          rw [hscan] at hc
          simp at hc
        constructor
        · intro h
          exact absurd h hr
        · intro h
          exact absurd (fun f hf => h pkg (by simp) hname f hf) hex
    · have hname' : pyEqStr (pyGet pkg "name") packageName = false := by simpa using hname
      simp only [scanPackages, hname', Bool.false_eq_true, if_false]
      rw [ih]
      constructor
      · intro h g hg hgname
        rcases List.mem_cons.mp hg with rfl | hg'
        · rw [hgname] at hname'; simp at hname'
        · exact h g hg' hgname
      · intro h g hg hgname
        exact h g (List.mem_cons_of_mem _ hg) hgname

end GitLabRegistry

theorem pyEqOpt_none_iff (v : PyVal) : pyEqOpt v none = true ↔ v = PyVal.null := by
  cases v <;> simp [pyEqOpt]

namespace GitLabRegistry

/-- C1: for every call to `GitLabRegistry.has_package` made against a
reachable, dict-shaped registry with caches consistent with it: when some
package whose `name` equals `package_name` contains a file record whose
`file_name` equals `file_name` — `pkgM` being the first such package in
fetch order and `fileRec` the first name-matching record in its file list,
which is where the source's scan decides — the call returns `True` if that
record's `file_{hash_alg}` field equals `expected_hash`, and otherwise
raises the hash-conflict `RuntimeError`: the mismatch is terminal and is
never reported as not-found (`.ok false`). -/
theorem has_package_match_decides (data : String → List PyVal) (cfg : Config)
    (fileName packageName hashAlg : String) (expectedHash : Option String) (st : GState)
    (pkgM fileRec : PyVal)
    (_hdict : DictData data) (hfaith : CacheFaithful data cfg st)
    (hfind : (data (packagesUrl cfg)).find? (fun pkg =>
        pyEqStr (pyGet pkg "name") packageName &&
        (data (packageFilesUrl cfg (pyGet pkg "id"))).any
          (fun f => pyEqStr (pyGet f "file_name") fileName)) = some pkgM)
    (hfile : (data (packageFilesUrl cfg (pyGet pkgM "id"))).find?
        (fun f => pyEqStr (pyGet f "file_name") fileName) = some fileRec) :
    (has_package (okFetcher data) cfg fileName packageName hashAlg expectedHash st).1 =
      (if pyEqOpt (pyGet fileRec ("file_" ++ hashAlg)) expectedHash then .ok true
        else .error (.hashConflict (hashConflictMsg fileName))) := by
  rw [has_package_scan data cfg fileName packageName hashAlg expectedHash st hfaith]
  exact scanPackages_first_match _ fileName packageName hashAlg expectedHash _ pkgM fileRec
    hfind hfile

/-- Witness for the C1 theorem: a one-package registry with a matching
hash; the call returns `True`. -/
theorem has_package_match_decides_witness :
    (has_package (okFetcher (fun u =>
        if u = "https://gl.test/api/v4/projects/7/packages"
        then [PyVal.dict [("name", PyVal.str "mypkg"), ("id", PyVal.str "3")]]
        else [PyVal.dict [("file_name", PyVal.str "mypkg-1.0.tar.gz"),
          ("file_sha256", PyVal.str "cafe")]]))
      ⟨"https://gl.test", "7"⟩ "mypkg-1.0.tar.gz" "mypkg" "sha256" (some "cafe")
      initState).1 = .ok true := by
  have h := has_package_match_decides (fun u =>
      if u = "https://gl.test/api/v4/projects/7/packages"
      then [PyVal.dict [("name", PyVal.str "mypkg"), ("id", PyVal.str "3")]]
      else [PyVal.dict [("file_name", PyVal.str "mypkg-1.0.tar.gz"),
        ("file_sha256", PyVal.str "cafe")]])
    ⟨"https://gl.test", "7"⟩ "mypkg-1.0.tar.gz" "mypkg" "sha256" (some "cafe") initState
    (PyVal.dict [("name", PyVal.str "mypkg"), ("id", PyVal.str "3")])
    (PyVal.dict [("file_name", PyVal.str "mypkg-1.0.tar.gz"),
      ("file_sha256", PyVal.str "cafe")])
    (by
      intro u v hv
      by_cases hu : u = "https://gl.test/api/v4/projects/7/packages" <;>
        simp [hu] at hv <;> exact ⟨_, hv⟩)
    ⟨Or.inl rfl, fun p hp => absurd hp (List.not_mem_nil p)⟩
    rfl rfl
  exact h.trans rfl

/-- C7: for every call made against a reachable, dict-shaped registry with
consistent caches, `has_package` returns `False` IF AND ONLY IF no fetched
package's `name` equals `package_name`, or every package whose name
matches contains no record whose `file_name` equals `file_name`.  The
right-to-left direction is the claim's return value; the left-to-right
direction shows the scan is exhaustive: it cannot conclude `False` while
any same-named package still contains the file, so it does not stop at the
first same-named package whose file list lacks the file. -/
theorem has_package_false_iff_no_match (data : String → List PyVal) (cfg : Config)
    (fileName packageName hashAlg : String) (expectedHash : Option String) (st : GState)
    (_hdict : DictData data) (hfaith : CacheFaithful data cfg st) :
    ((has_package (okFetcher data) cfg fileName packageName hashAlg expectedHash st).1
        = .ok false) ↔
      ∀ pkg ∈ data (packagesUrl cfg), pyEqStr (pyGet pkg "name") packageName = true →
        ∀ f ∈ data (packageFilesUrl cfg (pyGet pkg "id")),
          pyEqStr (pyGet f "file_name") fileName = false := by
  rw [has_package_scan data cfg fileName packageName hashAlg expectedHash st hfaith]
  exact scanPackages_false_iff _ fileName packageName hashAlg expectedHash _

/-- Witness for the C7 theorem: the only package has a different name, so
the call returns `False`. -/
theorem has_package_false_iff_no_match_witness :
    (has_package (okFetcher (fun u =>
        if u = "https://gl.test/api/v4/projects/9/packages"
        then [PyVal.dict [("name", PyVal.str "otherpkg"), ("id", PyVal.str "1")]]
        else [PyVal.dict [("file_name", PyVal.str "wanted-1.0.tar.gz")]]))
      ⟨"https://gl.test", "9"⟩ "wanted-1.0.tar.gz" "wanted" "sha256" none
      initState).1 = .ok false := by
  refine (has_package_false_iff_no_match (fun u =>
      if u = "https://gl.test/api/v4/projects/9/packages"
      then [PyVal.dict [("name", PyVal.str "otherpkg"), ("id", PyVal.str "1")]]
      else [PyVal.dict [("file_name", PyVal.str "wanted-1.0.tar.gz")]])
    ⟨"https://gl.test", "9"⟩ "wanted-1.0.tar.gz" "wanted" "sha256" none initState
    (by
      intro u v hv
      by_cases hu : u = "https://gl.test/api/v4/projects/9/packages" <;>
        simp [hu] at hv <;> exact ⟨_, hv⟩)
    ⟨Or.inl rfl, fun p hp => absurd hp (List.not_mem_nil p)⟩).mpr ?_
  intro pkg hpkg hname
  have hpkg' : pkg ∈ [PyVal.dict [("name", PyVal.str "otherpkg"), ("id", PyVal.str "1")]] :=
    hpkg
  rw [List.mem_singleton] at hpkg'
  subst hpkg'
  exact absurd hname (by decide)

/-- C10: with `expected_hash` absent (`None`), a call that finds a
name-matching file record (`pkgM`, `fileRec` as in C1) returns `True`
when the record's `file_{hash_alg}` lookup yields `None` — the absent
field compares equal to the absent expected hash — and raises the
hash-conflict error when the lookup yields any non-`None` value: omitting
the expected hash does not give the remote variant a pure existence
check. -/
theorem has_package_no_expected_hash (data : String → List PyVal) (cfg : Config)
    (fileName packageName hashAlg : String) (st : GState) (pkgM fileRec : PyVal)
    (_hdict : DictData data) (hfaith : CacheFaithful data cfg st)
    (hfind : (data (packagesUrl cfg)).find? (fun pkg =>
        pyEqStr (pyGet pkg "name") packageName &&
        (data (packageFilesUrl cfg (pyGet pkg "id"))).any
          (fun f => pyEqStr (pyGet f "file_name") fileName)) = some pkgM)
    (hfile : (data (packageFilesUrl cfg (pyGet pkgM "id"))).find?
        (fun f => pyEqStr (pyGet f "file_name") fileName) = some fileRec) :
    (pyGet fileRec ("file_" ++ hashAlg) = PyVal.null →
      (has_package (okFetcher data) cfg fileName packageName hashAlg none st).1 =
        .ok true) ∧
    (pyGet fileRec ("file_" ++ hashAlg) ≠ PyVal.null →
      (has_package (okFetcher data) cfg fileName packageName hashAlg none st).1 =
        .error (.hashConflict (hashConflictMsg fileName))) := by
  have hmain : (has_package (okFetcher data) cfg fileName packageName hashAlg none st).1 =
      (if pyEqOpt (pyGet fileRec ("file_" ++ hashAlg)) none then Except.ok true
        else .error (.hashConflict (hashConflictMsg fileName))) := by
    rw [has_package_scan data cfg fileName packageName hashAlg none st hfaith]
    exact scanPackages_first_match _ fileName packageName hashAlg none _ pkgM fileRec
      hfind hfile
  constructor
  · intro hnull
    rw [hmain, if_pos ((pyEqOpt_none_iff _).mpr hnull)]
  · intro hnn
    rw [hmain, if_neg]
    intro hc
    exact hnn ((pyEqOpt_none_iff _).mp hc)

/-- Witness for the C10 theorem: the matching record carries a
`file_sha512` field but no `file_sha256` field; the call with no expected
hash and `hash_alg = sha256` returns `True` by the first conjunct. -/
theorem has_package_no_expected_hash_witness :
    (has_package (okFetcher (fun u =>
        if u = "https://gl.test/api/v4/projects/5/packages"
        then [PyVal.dict [("name", PyVal.str "nohash"), ("id", PyVal.str "2")]]
        else [PyVal.dict [("file_name", PyVal.str "nohash-2.0.tar.gz"),
          ("file_sha512", PyVal.str "f00d")]]))
      ⟨"https://gl.test", "5"⟩ "nohash-2.0.tar.gz" "nohash" "sha256" none
      initState).1 = .ok true := by
  refine (has_package_no_expected_hash (fun u =>
      if u = "https://gl.test/api/v4/projects/5/packages"
      then [PyVal.dict [("name", PyVal.str "nohash"), ("id", PyVal.str "2")]]
      else [PyVal.dict [("file_name", PyVal.str "nohash-2.0.tar.gz"),
        ("file_sha512", PyVal.str "f00d")]])
    ⟨"https://gl.test", "5"⟩ "nohash-2.0.tar.gz" "nohash" "sha256" initState
    (PyVal.dict [("name", PyVal.str "nohash"), ("id", PyVal.str "2")])
    (PyVal.dict [("file_name", PyVal.str "nohash-2.0.tar.gz"),
      ("file_sha512", PyVal.str "f00d")])
    (by
      intro u v hv
      by_cases hu : u = "https://gl.test/api/v4/projects/5/packages" <;>
        simp [hu] at hv <;> exact ⟨_, hv⟩)
    ⟨Or.inl rfl, fun p hp => absurd hp (List.not_mem_nil p)⟩
    rfl rfl).1 rfl

end GitLabRegistry

namespace GitLabRegistry

theorem hasPackageLoop_conflict_msg (fetchApi : EndpointFetcher) (cfg : Config)
    (fileName packageName hashAlg : String) (expectedHash : Option String) :
    ∀ (pkgs : List PyVal) (st : GState) (m : String) (st' : GState) (log : List String),
      hasPackageLoop fetchApi cfg fileName packageName hashAlg expectedHash pkgs st =
        (.error (.hashConflict m), st', log) →
      m = hashConflictMsg fileName := by
  intro pkgs
  induction pkgs with
  | nil =>
    intro st m st' log h
    simp [hasPackageLoop] at h
  | cons pkg rest ih =>
    intro st m st' log h
    by_cases hname : pyEqStr (pyGet pkg "name") packageName = true
    · simp only [hasPackageLoop, hname, if_true] at h
      rcases fetch_package_files_cases fetchApi cfg (pyGet pkg "id") st with
        ⟨l, hc, heq⟩ | ⟨hc, ⟨l, hfa, heq⟩ | ⟨m2, hfa, heq⟩⟩
      · rw [heq] at h
        dsimp only at h
        cases hscan : scanFiles fileName hashAlg expectedHash l with
        | some r =>
          rw [hscan] at h
          simp only [Prod.mk.injEq] at h
          exact RegError.hashConflict.inj (scanFiles_error_msg fileName hashAlg
            expectedHash l _ (by rw [hscan, h.1]))
        | none =>
          rw [hscan] at h
          rcases hrec : hasPackageLoop fetchApi cfg fileName packageName hashAlg
              expectedHash rest st with ⟨r, st2, log2⟩
          rw [hrec] at h
          simp only [Prod.mk.injEq] at h
          exact ih st m st2 log2 (by rw [hrec, h.1])
      · rw [heq] at h
        dsimp only at h
        cases hscan : scanFiles fileName hashAlg expectedHash l with
        | some r =>
          rw [hscan] at h
          simp only [Prod.mk.injEq] at h
          exact RegError.hashConflict.inj (scanFiles_error_msg fileName hashAlg
            expectedHash l _ (by rw [hscan, h.1]))
        | none =>
          rw [hscan] at h
          rcases hrec : hasPackageLoop fetchApi cfg fileName packageName hashAlg
              expectedHash rest
              { st with packageFilesCache := st.packageFilesCache ++ [(pyGet pkg "id", l)] }
            with ⟨r, st2, log2⟩
          rw [hrec] at h
          simp only [Prod.mk.injEq] at h
          exact ih _ m st2 log2 (by rw [hrec, h.1])
      · rw [heq] at h
        simp only [Prod.mk.injEq] at h
        exact absurd h.1 (by simp)
    · have hname' : pyEqStr (pyGet pkg "name") packageName = false := by simpa using hname
      simp only [hasPackageLoop, hname', Bool.false_eq_true, if_false] at h
      exact ih st m st' log h

/-- C9 (amended): whenever `GitLabRegistry.has_package` raises the
hash-conflict error, the error's message embeds the conflicting file's
name — it is exactly `"Hash of {file_name} does not match, unknown how to
proceed"` — but it does not name the registry or the package (see the
counterexample theorem). -/
theorem has_package_conflict_message_names_file (fetchApi : EndpointFetcher) (cfg : Config)
    (fileName packageName hashAlg : String) (expectedHash : Option String) (st : GState)
    (m : String)
    (h : (has_package fetchApi cfg fileName packageName hashAlg expectedHash st).1 =
      .error (.hashConflict m)) :
    m = "Hash of " ++ fileName ++ " does not match, unknown how to proceed" := by
  have hmsg : m = hashConflictMsg fileName := by
    rcases fetch_packages_list_cases fetchApi cfg st with
      ⟨l, hc, heq⟩ | ⟨hc, ⟨l, hfa, heq⟩ | ⟨m2, hfa, heq⟩⟩
    · simp only [has_package, heq] at h
      rcases hrec : hasPackageLoop fetchApi cfg fileName packageName hashAlg
          expectedHash l st with ⟨r, st2, log2⟩
      rw [hrec] at h
      dsimp only at h
      exact hasPackageLoop_conflict_msg fetchApi cfg fileName packageName hashAlg
        expectedHash l st m st2 log2 (by rw [hrec, h])
    · simp only [has_package, heq] at h
      rcases hrec : hasPackageLoop fetchApi cfg fileName packageName hashAlg
          expectedHash l { st with packagesCache := some l } with ⟨r, st2, log2⟩
      rw [hrec] at h
      dsimp only at h
      exact hasPackageLoop_conflict_msg fetchApi cfg fileName packageName hashAlg
        expectedHash l _ m st2 log2 (by rw [hrec, h])
    · simp only [has_package, heq] at h
      exact absurd h (by simp)
  exact hmsg

/-- Witness for the amended C9 theorem at a concrete conflicting call. -/
theorem has_package_conflict_message_names_file_witness :
    ("Hash of artifact-1.0.tar.gz does not match, unknown how to proceed" : String) =
      "Hash of " ++ "artifact-1.0.tar.gz" ++ " does not match, unknown how to proceed" :=
  has_package_conflict_message_names_file
    (okFetcher (fun u =>
      if u = "https://gl.test/api/v4/projects/11/packages"
      then [PyVal.dict [("name", PyVal.str "demo-package"), ("id", PyVal.str "4")]]
      else [PyVal.dict [("file_name", PyVal.str "artifact-1.0.tar.gz"),
        ("file_sha256", PyVal.str "cafe")]]))
    ⟨"https://gl.test", "11"⟩ "artifact-1.0.tar.gz" "demo-package" "sha256" (some "beef")
    initState "Hash of artifact-1.0.tar.gz does not match, unknown how to proceed" rfl

/-- C9 counterexample: a concrete call on the registry
`GitLab (https://gl.test)` for package `demo-package` raises the
hash-conflict error whose message contains the file name but neither the
package name `demo-package` nor the registry host `gl.test` — so the
message does not identify the registry or the package, refuting the claim
as stated. -/
theorem has_package_error_message_counterexample :
    (has_package (okFetcher (fun u =>
        if u = "https://gl.test/api/v4/projects/11/packages"
        then [PyVal.dict [("name", PyVal.str "demo-package"), ("id", PyVal.str "4")]]
        else [PyVal.dict [("file_name", PyVal.str "artifact-1.0.tar.gz"),
          ("file_sha256", PyVal.str "cafe")]]))
      ⟨"https://gl.test", "11"⟩ "artifact-1.0.tar.gz" "demo-package" "sha256" (some "beef")
      initState).1 = .error (.hashConflict
        "Hash of artifact-1.0.tar.gz does not match, unknown how to proceed") ∧
    containsSub
      "Hash of artifact-1.0.tar.gz does not match, unknown how to proceed".toList
      "artifact-1.0.tar.gz".toList = true ∧
    containsSub
      "Hash of artifact-1.0.tar.gz does not match, unknown how to proceed".toList
      "demo-package".toList = false ∧
    containsSub
      "Hash of artifact-1.0.tar.gz does not match, unknown how to proceed".toList
      "gl.test".toList = false :=
  ⟨rfl, rfl, rfl, rfl⟩

end GitLabRegistry

namespace GitLabRegistry

/-- Witness for the C2 theorem: two pages linked by a `Link: ...;
rel="next"` header produce the concatenation of both pages' items. -/
theorem fetch_paginated_api_concatenates_pages_witness :
    fetch_paginated_api
      (fun u =>
        if u = "http://api/things?per_page=100"
        then .success ⟨PyVal.list [PyVal.int 1, PyVal.int 2],
          some "<http://api/p2>; rel=\"next\""⟩
        else if u = "http://api/p2"
        then .success ⟨PyVal.list [PyVal.int 3], none⟩
        else .failure "no route")
      "GitLab (http://api)" 5 "http://api/things" =
      some (.ok [PyVal.int 1, PyVal.int 2, PyVal.int 3]) := by
  have h := fetch_paginated_api_concatenates_pages
    (fun u =>
      if u = "http://api/things?per_page=100"
      then .success ⟨PyVal.list [PyVal.int 1, PyVal.int 2],
        some "<http://api/p2>; rel=\"next\""⟩
      else if u = "http://api/p2"
      then .success ⟨PyVal.list [PyVal.int 3], none⟩
      else .failure "no route")
    "GitLab (http://api)" "http://api/things"
    [[PyVal.int 1, PyVal.int 2], [PyVal.int 3]] 5
    (by
      refine ⟨⟨PyVal.list [PyVal.int 1, PyVal.int 2],
        some "<http://api/p2>; rel=\"next\""⟩, rfl, rfl,
        Or.inr ⟨"http://api/p2", rfl, by decide, ?_⟩⟩
      exact ⟨⟨PyVal.list [PyVal.int 3], none⟩, rfl, rfl, Or.inl ⟨rfl, rfl, Or.inl rfl⟩⟩)
    (by decide)
  exact h

/-- Witness for the C4 theorem: a one-page chain whose `next` URL fails at
transport level; the walk surfaces the wrapping protocol error and none of
the first page's items. -/
theorem fetch_paginated_api_error_behaviour_witness :
    fetch_paginated_api
      (fun u =>
        if u = "http://api/things?per_page=100"
        then .success ⟨PyVal.list [PyVal.int 1], some "<http://api/bad>; rel=\"next\""⟩
        else .failure "connection refused")
      "GitLab (http://api)" 5 "http://api/things" =
      some (.error (.protocolError ("Failed to read data from " ++ "http://api/bad"))) := by
  have h := fetch_paginated_api_error_behaviour
    (fun u =>
      if u = "http://api/things?per_page=100"
      then .success ⟨PyVal.list [PyVal.int 1], some "<http://api/bad>; rel=\"next\""⟩
      else .failure "connection refused")
    "GitLab (http://api)" "http://api/things" [[PyVal.int 1]] "http://api/bad" 5
    (by
      exact ⟨⟨PyVal.list [PyVal.int 1], some "<http://api/bad>; rel=\"next\""⟩, rfl, rfl,
        Or.inr ⟨"http://api/bad", rfl, by decide, rfl⟩⟩)
    (by decide)
  exact h.1 "connection refused" rfl

/-- Witness for the C8 theorem: a malformed middle section is dropped
while the sections around it are still processed. -/
theorem parse_link_header_skips_malformed_witness :
    ["<http://a>; rel=next".toList, "junk".toList, "<http://b>; rel=prev".toList].foldl
        processSection [] =
      ["<http://a>; rel=next".toList, "<http://b>; rel=prev".toList].foldl
        processSection [] := by
  have h := parse_link_header_skips_malformed [] ["<http://a>; rel=next".toList]
    ["<http://b>; rel=prev".toList] "junk".toList [] [] [] "nx".toList
    "junk".toList [] rfl (by decide) rfl
  exact h.1

end GitLabRegistry

namespace GitLabRegistry

theorem fetch_package_files_hit (fetchApi : EndpointFetcher) (cfg : Config) (pid : PyVal)
    (st : GState) (l : List PyVal) (hc : cacheGet st.packageFilesCache pid = some l) :
    fetch_package_files fetchApi cfg pid st = (.ok l, st, []) := by
  simp [fetch_package_files, hc]

theorem fetch_packages_list_hit (fetchApi : EndpointFetcher) (cfg : Config)
    (st : GState) (l : List PyVal) (hc : st.packagesCache = some l) :
    fetch_packages_list fetchApi cfg st = (.ok l, st, []) := by
  simp [fetch_packages_list, hc]

theorem hasPackageLoop_props (fetchApi : EndpointFetcher) (cfg : Config)
    (fileName packageName hashAlg : String) (expectedHash : Option String) :
    ∀ (pkgs : List PyVal) (st : GState) (r : Except RegError Bool) (st' : GState)
      (log : List String),
      hasPackageLoop fetchApi cfg fileName packageName hashAlg expectedHash pkgs st =
        (r, st', log) →
      st'.packagesCache = st.packagesCache ∧
      (∀ pid l, cacheGet st.packageFilesCache pid = some l →
        cacheGet st'.packageFilesCache pid = some l) ∧
      (∀ url ∈ log, ∃ pid, url = packageFilesUrl cfg pid ∧
        cacheGet st.packageFilesCache pid = none) := by
  intro pkgs
  induction pkgs with
  | nil =>
    intro st r st' log h
    simp only [hasPackageLoop, Prod.mk.injEq] at h
    obtain ⟨-, h2, h3⟩ := h
    subst h2; subst h3
    exact ⟨rfl, fun pid l hl => hl, by simp⟩
  | cons pkg rest ih =>
    intro st r st' log h
    by_cases hname : pyEqStr (pyGet pkg "name") packageName = true
    · simp only [hasPackageLoop, hname, if_true] at h
      rcases fetch_package_files_cases fetchApi cfg (pyGet pkg "id") st with
        ⟨l, hc, heq⟩ | ⟨hc, ⟨l, hfa, heq⟩ | ⟨m2, hfa, heq⟩⟩
      · rw [heq] at h
        dsimp only at h
        cases hscan : scanFiles fileName hashAlg expectedHash l with
        | some r0 =>
          rw [hscan] at h
          simp only [Prod.mk.injEq] at h
          obtain ⟨-, h2, h3⟩ := h
          subst h2; subst h3
          exact ⟨rfl, fun pid l hl => hl, by simp⟩
        | none =>
          rw [hscan] at h
          rcases hrec : hasPackageLoop fetchApi cfg fileName packageName hashAlg
              expectedHash rest st with ⟨r2, st2, log2⟩
          rw [hrec] at h
          simp only [Prod.mk.injEq] at h
          obtain ⟨-, h2, h3⟩ := h
          subst h2; subst h3
          obtain ⟨hm1, hm2, hm3⟩ := ih _ _ _ _ hrec
          exact ⟨hm1, hm2, by simpa using hm3⟩
      · rw [heq] at h
        dsimp only at h
        cases hscan : scanFiles fileName hashAlg expectedHash l with
        | some r0 =>
          rw [hscan] at h
          simp only [Prod.mk.injEq] at h
          obtain ⟨-, h2, h3⟩ := h
          subst h2; subst h3
          refine ⟨rfl, ?_, ?_⟩
          · intro pid' l' hl'
            exact cacheGet_append_some _ _ _ _ _ hl'
          · intro url hurl
            have : url = packageFilesUrl cfg (pyGet pkg "id") := by simpa using hurl
            exact ⟨pyGet pkg "id", this, hc⟩
        | none =>
          rw [hscan] at h
          rcases hrec : hasPackageLoop fetchApi cfg fileName packageName hashAlg
              expectedHash rest
              { st with packageFilesCache := st.packageFilesCache ++ [(pyGet pkg "id", l)] }
            with ⟨r2, st2, log2⟩
          rw [hrec] at h
          simp only [Prod.mk.injEq] at h
          obtain ⟨-, h2, h3⟩ := h
          subst h2; subst h3
          obtain ⟨hm1, hm2, hm3⟩ := ih _ _ _ _ hrec
          refine ⟨hm1, ?_, ?_⟩
          · intro pid' l' hl'
            exact hm2 pid' l' (cacheGet_append_some _ _ _ _ _ hl')
          · intro url hurl
            rcases List.mem_append.mp hurl with hurl' | hurl'
            · have : url = packageFilesUrl cfg (pyGet pkg "id") := by simpa using hurl'
              exact ⟨pyGet pkg "id", this, hc⟩
            · obtain ⟨pid', hpu, hpnone⟩ := hm3 url hurl'
              refine ⟨pid', hpu, ?_⟩
              cases hq : cacheGet st.packageFilesCache pid' with
              | none => rfl
              | some l' =>
                have := cacheGet_append_some st.packageFilesCache (pyGet pkg "id") pid' l l' hq
                rw [this] at hpnone
                exact absurd hpnone (by simp)
      · rw [heq] at h
        simp only [Prod.mk.injEq] at h
        obtain ⟨-, h2, h3⟩ := h
        subst h2; subst h3
        refine ⟨rfl, fun pid l hl => hl, ?_⟩
        intro url hurl
        have : url = packageFilesUrl cfg (pyGet pkg "id") := by simpa using hurl
        exact ⟨pyGet pkg "id", this, hc⟩
    · have hname' : pyEqStr (pyGet pkg "name") packageName = false := by simpa using hname
      simp only [hasPackageLoop, hname', Bool.false_eq_true, if_false] at h
      exact ih st r st' log h

end GitLabRegistry

namespace GitLabRegistry

theorem hasPackageLoop_replay (fetchApi : EndpointFetcher) (cfg : Config)
    (fileName packageName hashAlg : String) (expectedHash : Option String) :
    ∀ (pkgs : List PyVal) (st : GState) (r : Except RegError Bool) (st' : GState)
      (log : List String),
      hasPackageLoop fetchApi cfg fileName packageName hashAlg expectedHash pkgs st =
        (r, st', log) →
      (∀ m, r ≠ .error (.protocolError m)) →
      (∀ pkg ∈ pkgs, pyEqStr (pyGet pkg "name") packageName = true →
        pyHashable (pyGet pkg "id") = true) →
      hasPackageLoop fetchApi cfg fileName packageName hashAlg expectedHash pkgs st' =
        (r, st', []) := by
  intro pkgs
  induction pkgs with
  | nil =>
    intro st r st' log h _ _
    simp only [hasPackageLoop, Prod.mk.injEq] at h
    obtain ⟨h1, h2, -⟩ := h
    subst h1; subst h2
    rfl
  | cons pkg rest ih =>
    intro st r st' log h hnp hh
    by_cases hname : pyEqStr (pyGet pkg "name") packageName = true
    · have hhash : pyHashable (pyGet pkg "id") = true := hh pkg (by simp) hname
      simp only [hasPackageLoop, hname, if_true] at h ⊢
      rcases fetch_package_files_cases fetchApi cfg (pyGet pkg "id") st with
        ⟨l, hc, heq⟩ | ⟨hc, ⟨l, hfa, heq⟩ | ⟨m2, hfa, heq⟩⟩
      · rw [heq] at h
        dsimp only at h
        cases hscan : scanFiles fileName hashAlg expectedHash l with
        | some r0 =>
          rw [hscan] at h
          simp only [Prod.mk.injEq] at h
          obtain ⟨h1, h2, -⟩ := h
          subst h1; subst h2
          rw [fetch_package_files_hit fetchApi cfg _ _ l hc]
          dsimp only
          rw [hscan]
        | none =>
          rw [hscan] at h
          rcases hrec : hasPackageLoop fetchApi cfg fileName packageName hashAlg
              expectedHash rest st with ⟨r2, st2, log2⟩
          rw [hrec] at h
          simp only [Prod.mk.injEq] at h
          obtain ⟨h1, h2, -⟩ := h
          subst h1; subst h2
          have hmono := (hasPackageLoop_props fetchApi cfg fileName packageName hashAlg
            expectedHash rest st _ _ _ hrec).2.1
          have hc2 := hmono (pyGet pkg "id") l hc
          rw [fetch_package_files_hit fetchApi cfg _ _ l hc2]
          dsimp only
          rw [hscan]
          have hrep := ih st _ _ _ hrec hnp (fun g hg hgname =>
            hh g (List.mem_cons_of_mem _ hg) hgname)
          rw [hrep]
          rfl
      · rw [heq] at h
        dsimp only at h
        have hc1 : cacheGet ({ st with packageFilesCache :=
            st.packageFilesCache ++ [(pyGet pkg "id", l)] } : GState).packageFilesCache
            (pyGet pkg "id") = some l :=
          cacheGet_append_self _ _ _ hhash hc
        cases hscan : scanFiles fileName hashAlg expectedHash l with
        | some r0 =>
          rw [hscan] at h
          simp only [Prod.mk.injEq] at h
          obtain ⟨h1, h2, -⟩ := h
          subst h1; subst h2
          rw [fetch_package_files_hit fetchApi cfg _ _ l hc1]
          dsimp only
          rw [hscan]
        | none =>
          rw [hscan] at h
          rcases hrec : hasPackageLoop fetchApi cfg fileName packageName hashAlg
              expectedHash rest
              { st with packageFilesCache := st.packageFilesCache ++ [(pyGet pkg "id", l)] }
            with ⟨r2, st2, log2⟩
          rw [hrec] at h
          simp only [Prod.mk.injEq] at h
          obtain ⟨h1, h2, -⟩ := h
          subst h1; subst h2
          have hmono := (hasPackageLoop_props fetchApi cfg fileName packageName hashAlg
            expectedHash rest _ _ _ _ hrec).2.1
          have hc2 := hmono (pyGet pkg "id") l hc1
          rw [fetch_package_files_hit fetchApi cfg _ _ l hc2]
          dsimp only
          rw [hscan]
          have hrep := ih _ _ _ _ hrec hnp (fun g hg hgname =>
            hh g (List.mem_cons_of_mem _ hg) hgname)
          rw [hrep]
          rfl
      · rw [heq] at h
        simp only [Prod.mk.injEq] at h
        obtain ⟨h1, -, -⟩ := h
        exact absurd h1.symm (hnp m2)
    · have hname' : pyEqStr (pyGet pkg "name") packageName = false := by simpa using hname
      simp only [hasPackageLoop, hname', Bool.false_eq_true, if_false] at h ⊢
      exact ih st r st' log h hnp (fun g hg hgname =>
        hh g (List.mem_cons_of_mem _ hg) hgname)

end GitLabRegistry

namespace GitLabRegistry

/-- C5: cache discipline of `GitLabRegistry`.  For any call
`has_package ... st = (r, st', log)`:
(1) every endpoint fetched during the call had an unpopulated cache slot
at the start of the call — a populated package-list slot or file-cache
entry is never refetched;
(2) a populated package-list slot survives the call with its value, and
(3) so does every populated file-cache entry — `has_package` never resets
a slot to unfetched, leaving `clear_cache` as the only resetting
operation, and
(4) `clear_cache` resets the package-list slot and the entire
file-list-by-id mapping back to the unfetched initial state;
(5) when the call raised no protocol error, calling `has_package` again
with identical arguments and no intervening `clear_cache` returns the
identical result, leaves the state unchanged, and performs zero fetches
(the hashability premise on the ids of name-matching packages reflects
that Python dict keys must be hashable — unhashable ids would raise
`TypeError` rather than cache). -/
theorem has_package_cache_invariants (fetchApi : EndpointFetcher) (cfg : Config)
    (fileName packageName hashAlg : String) (expectedHash : Option String) (st : GState)
    (r : Except RegError Bool) (st' : GState) (log : List String)
    (hrun : has_package fetchApi cfg fileName packageName hashAlg expectedHash st =
      (r, st', log)) :
    (∀ url ∈ log, (url = packagesUrl cfg ∧ st.packagesCache = none) ∨
      (∃ pid, url = packageFilesUrl cfg pid ∧
        cacheGet st.packageFilesCache pid = none)) ∧
    (∀ l, st.packagesCache = some l → st'.packagesCache = some l) ∧
    (∀ pid l, cacheGet st.packageFilesCache pid = some l →
      cacheGet st'.packageFilesCache pid = some l) ∧
    clear_cache st' = initState ∧
    ((∀ m, r ≠ .error (.protocolError m)) →
      ∀ pkgs, st'.packagesCache = some pkgs →
      (∀ pkg ∈ pkgs, pyEqStr (pyGet pkg "name") packageName = true →
        pyHashable (pyGet pkg "id") = true) →
      has_package fetchApi cfg fileName packageName hashAlg expectedHash st' =
        (r, st', [])) := by
  rcases fetch_packages_list_cases fetchApi cfg st with
    ⟨l, hc, heq⟩ | ⟨hc, ⟨l, hfa, heq⟩ | ⟨m2, hfa, heq⟩⟩
  · simp only [has_package, heq] at hrun
    rcases hrec : hasPackageLoop fetchApi cfg fileName packageName hashAlg
        expectedHash l st with ⟨r2, st2, log2⟩
    rw [hrec] at hrun
    simp only [Prod.mk.injEq] at hrun
    obtain ⟨h1, h2, h3⟩ := hrun
    subst h1; subst h2; subst h3
    obtain ⟨hm1, hm2, hm3⟩ := hasPackageLoop_props fetchApi cfg fileName packageName
      hashAlg expectedHash l st _ _ _ hrec
    refine ⟨?_, ?_, ?_, rfl, ?_⟩
    · intro url hurl
      obtain ⟨pid, hpu, hpnone⟩ := hm3 url (by simpa using hurl)
      exact .inr ⟨pid, hpu, hpnone⟩
    · intro l0 hl0
      rw [hm1, hl0]
    · exact hm2
    · intro hnp pkgs hpkgs hh
      have hl : pkgs = l := by
        rw [hm1, hc] at hpkgs
        simpa using hpkgs.symm
      subst hl
      have hrep := hasPackageLoop_replay fetchApi cfg fileName packageName hashAlg
        expectedHash pkgs st _ _ _ hrec hnp hh
      have hpk : st2.packagesCache = some pkgs := by rw [hm1, hc]
      simp only [has_package, fetch_packages_list_hit fetchApi cfg st2 pkgs hpk, hrep]
      rfl
  · simp only [has_package, heq] at hrun
    rcases hrec : hasPackageLoop fetchApi cfg fileName packageName hashAlg
        expectedHash l { st with packagesCache := some l } with ⟨r2, st2, log2⟩
    rw [hrec] at hrun
    simp only [Prod.mk.injEq] at hrun
    obtain ⟨h1, h2, h3⟩ := hrun
    subst h1; subst h2; subst h3
    obtain ⟨hm1, hm2, hm3⟩ := hasPackageLoop_props fetchApi cfg fileName packageName
      hashAlg expectedHash l _ _ _ _ hrec
    refine ⟨?_, ?_, ?_, rfl, ?_⟩
    · intro url hurl
      rcases List.mem_cons.mp hurl with hurl' | hurl'
      · exact .inl ⟨hurl', hc⟩
      · obtain ⟨pid, hpu, hpnone⟩ := hm3 url hurl'
        exact .inr ⟨pid, hpu, hpnone⟩
    · intro l0 hl0
      rw [hc] at hl0
      exact absurd hl0 (by simp)
    · exact hm2
    · intro hnp pkgs hpkgs hh
      have hl : pkgs = l := by
        rw [hm1] at hpkgs
        simpa using hpkgs.symm
      subst hl
      have hrep := hasPackageLoop_replay fetchApi cfg fileName packageName hashAlg
        expectedHash pkgs _ _ _ _ hrec hnp hh
      have hpk : st2.packagesCache = some pkgs := by rw [hm1]
      simp only [has_package, fetch_packages_list_hit fetchApi cfg st2 pkgs hpk, hrep]
      rfl
  · simp only [has_package, heq] at hrun
    simp only [Prod.mk.injEq] at hrun
    obtain ⟨h1, h2, h3⟩ := hrun
    subst h1; subst h2; subst h3
    refine ⟨?_, ?_, fun pid l hl => hl, rfl, ?_⟩
    · intro url hurl
      have : url = packagesUrl cfg := by simpa using hurl
      exact .inl ⟨this, hc⟩
    · intro l0 hl0
      rw [hc] at hl0
      exact absurd hl0 (by simp)
    · intro hnp
      exact absurd rfl (hnp m2)

end GitLabRegistry

namespace GitLabRegistry

/-- Witness for the C5 theorem: after a successful first call from a
fresh instance (which fetched both endpoints), the identical second call
returns the same result, leaves the caches unchanged, and fetches
nothing. -/
theorem has_package_cache_invariants_witness :
    has_package (okFetcher (fun u =>
        if u = "https://gl.test/api/v4/projects/8/packages"
        then [PyVal.dict [("name", PyVal.str "wpkg"), ("id", PyVal.str "6")]]
        else [PyVal.dict [("file_name", PyVal.str "w-1.0.tar.gz"),
          ("file_sha256", PyVal.str "aa")]]))
      ⟨"https://gl.test", "8"⟩ "w-1.0.tar.gz" "wpkg" "sha256" (some "aa")
      ⟨some [PyVal.dict [("name", PyVal.str "wpkg"), ("id", PyVal.str "6")]],
        [(PyVal.str "6", [PyVal.dict [("file_name", PyVal.str "w-1.0.tar.gz"),
          ("file_sha256", PyVal.str "aa")]])]⟩ =
      (.ok true,
        ⟨some [PyVal.dict [("name", PyVal.str "wpkg"), ("id", PyVal.str "6")]],
          [(PyVal.str "6", [PyVal.dict [("file_name", PyVal.str "w-1.0.tar.gz"),
            ("file_sha256", PyVal.str "aa")]])]⟩, []) :=
  (has_package_cache_invariants (okFetcher (fun u =>
      if u = "https://gl.test/api/v4/projects/8/packages"
      then [PyVal.dict [("name", PyVal.str "wpkg"), ("id", PyVal.str "6")]]
      else [PyVal.dict [("file_name", PyVal.str "w-1.0.tar.gz"),
        ("file_sha256", PyVal.str "aa")]]))
    ⟨"https://gl.test", "8"⟩ "w-1.0.tar.gz" "wpkg" "sha256" (some "aa") initState
    (.ok true)
    ⟨some [PyVal.dict [("name", PyVal.str "wpkg"), ("id", PyVal.str "6")]],
      [(PyVal.str "6", [PyVal.dict [("file_name", PyVal.str "w-1.0.tar.gz"),
        ("file_sha256", PyVal.str "aa")]])]⟩
    ["https://gl.test/api/v4/projects/8/packages",
      "https://gl.test/api/v4/projects/8/packages/6/package_files"]
    rfl).2.2.2.2
    (fun _ h => Except.noConfusion h)
    [PyVal.dict [("name", PyVal.str "wpkg"), ("id", PyVal.str "6")]]
    rfl
    (by decide)

end GitLabRegistry
